import Mathlib

/-!
# CntxtJV — shallow embedding and verification

This file embeds the entity-extraction and graph-assembly engine of the
CntxtJV Java-codebase analyzer (`CntxtJV.py` and the `regex_components`
package) in Lean 4 and settles the frozen claims about it.

The Python extractors are built on `re`; we therefore first implement a
small backtracking regular-expression engine with the exact semantics the
source relies on (greedy and lazy repetition, ordered alternation,
leftmost matching, capturing groups where a group nested inside a
repetition keeps only its last iteration, look-ahead, word boundaries,
multiline anchors).  Each Python pattern is then transliterated into a
`Rx` value, and each extractor into a Lean function over `String`.

Machine details that the claims do not touch are modelled as follows:
CPython's run-deterministic `hash(str)` (used only to build comment/log
node identifiers) is modelled by the fixed deterministic function
`pyHash`; file-system reads are modelled by passing file contents as
values.
-/

namespace CntxtJV

/-- A character class: a set of explicit characters plus ranges,
optionally negated (`[^...]`). -/
structure CClass where
  neg : Bool
  chars : List Char
  ranges : List (Char × Char)
  deriving Repr, DecidableEq

/-- Membership test of a character in a class. -/
def CClass.test (cc : CClass) (c : Char) : Bool :=
  let base := cc.chars.contains c || cc.ranges.any (fun r => r.1 ≤ c && c ≤ r.2)
  if cc.neg then !base else base

/-- Regular-expression abstract syntax, covering exactly the constructs
used by the source's patterns. -/
inductive Rx where
  /-- matches the empty string -/
  | eps : Rx
  /-- a literal character sequence -/
  | lit : List Char → Rx
  /-- a character class -/
  | cls : CClass → Rx
  /-- concatenation -/
  | seq : Rx → Rx → Rx
  /-- ordered alternation (left preferred, as in Python `re`) -/
  | alt : Rx → Rx → Rx
  /-- greedy Kleene star -/
  | star : Rx → Rx
  /-- lazy Kleene star (`*?`) -/
  | starL : Rx → Rx
  /-- greedy option (`?`) -/
  | opt : Rx → Rx
  /-- numbered capturing group -/
  | grp : Nat → Rx → Rx
  /-- look-ahead: positive when the flag is `true`, negative otherwise -/
  | look : Bool → Rx → Rx
  /-- word boundary `\b` -/
  | bnd : Rx
  /-- multiline `^` (start of input or just after a newline) -/
  | bolM : Rx
  /-- multiline `$` (end of input or just before a newline) -/
  | eolM : Rx
  /-- absolute end of input (`\Z`) -/
  | eos : Rx
  deriving Repr

/-- Matcher state: the remaining input, the previously consumed character
(for `\b` and multiline `^`), and the absolute position. -/
structure MSt where
  rest : List Char
  prev : Option Char
  pos : Nat
  deriving Repr

/-- Captured groups: group index paired with the captured characters.
The most recent capture of a group is listed first, so a group nested
inside a repetition reports its last iteration, as in Python. -/
abbrev Caps := List (Nat × List Char)

/-- Word character for `\b` (ASCII, as used by the source's inputs). -/
def isWordChar (c : Char) : Bool :=
  (('a' ≤ c && c ≤ 'z') || ('A' ≤ c && c ≤ 'Z') || ('0' ≤ c && c ≤ '9') || c = '_')

/-- Consume a literal character sequence from the state, if present. -/
def litStep : List Char → MSt → Option MSt
  | [], st => some st
  | c :: cs, st =>
    match st.rest with
    | [] => none
    | d :: ds => if d = c then litStep cs ⟨ds, some d, st.pos + 1⟩ else none

/-- The backtracking matcher, in continuation-passing style.  `fuel`
bounds the unfolding of repetitions (each iteration of a repetition in
the source's patterns consumes at least one character, so an initial fuel
of `|input| + 1` is always sufficient).  The continuation receives the
state after the sub-match and the captures collected so far; the overall
result is the end state and captures of the first (leftmost, preferring
earlier alternatives and greedy/lazy iteration order) full match. -/
def mtch : Nat → Rx → MSt → Caps → (MSt → Caps → Option (MSt × Caps)) →
    Option (MSt × Caps)
  | 0, _, _, _, _ => none
  | fuel + 1, r, st, cp, k =>
    match r with
    | .eps => k st cp
    | .lit cs =>
      match litStep cs st with
      | some st' => k st' cp
      | none => none
    | .cls cc =>
      match st.rest with
      | [] => none
      | c :: cs => if cc.test c then k ⟨cs, some c, st.pos + 1⟩ cp else none
    | .seq a b => mtch fuel a st cp (fun st' cp' => mtch fuel b st' cp' k)
    | .alt a b =>
      match mtch fuel a st cp k with
      | some r => some r
      | none => mtch fuel b st cp k
    | .star a =>
      match mtch fuel a st cp (fun st' cp' =>
          if st'.pos > st.pos then mtch fuel (.star a) st' cp' k else none) with
      | some r => some r
      | none => k st cp
    | .starL a =>
      match k st cp with
      | some r => some r
      | none =>
        mtch fuel a st cp (fun st' cp' =>
          if st'.pos > st.pos then mtch fuel (.starL a) st' cp' k else none)
    | .opt a =>
      match mtch fuel a st cp k with
      | some r => some r
      | none => k st cp
    | .grp n a =>
      mtch fuel a st cp (fun st' cp' => k st' ((n, st.rest.take (st'.pos - st.pos)) :: cp'))
    | .look positive a =>
      match mtch fuel a st cp (fun st' cp' => some (st', cp')) with
      | some _ => if positive then k st cp else none
      | none => if positive then none else k st cp
    | .bnd =>
      let before := match st.prev with | none => false | some c => isWordChar c
      let after := match st.rest with | [] => false | c :: _ => isWordChar c
      if before ≠ after then k st cp else none
    | .bolM =>
      match st.prev with
      | none => k st cp
      | some c => if c = '\n' then k st cp else none
    | .eolM =>
      match st.rest with
      | [] => k st cp
      | c :: _ => if c = '\n' then k st cp else none
    | .eos =>
      match st.rest with
      | [] => k st cp
      | _ :: _ => none

/-- Number of constructors of an expression, used to size the fuel. -/
def Rx.rsize : Rx → Nat
  | .eps | .lit _ | .cls _ | .bnd | .bolM | .eolM | .eos => 1
  | .seq a b | .alt a b => a.rsize + b.rsize + 1
  | .star a | .starL a | .opt a | .grp _ a | .look _ a => a.rsize + 1

/-- One match record: start position, end position, and captures.
Group `0` would be the whole match; we store its text explicitly. -/
structure MRec where
  start : Nat
  stop : Nat
  whole : List Char
  caps : Caps
  deriving Repr

/-- Text captured by group `n`, or `none` if the group did not
participate in the match (Python's `None`). -/
def MRec.group (m : MRec) (n : Nat) : Option (List Char) :=
  (m.caps.find? (fun p => p.1 = n)).map (·.2)

/-- Group `n` as a string, with Python's `or ''` convention. -/
def MRec.groupD (m : MRec) (n : Nat) : String :=
  match m.group n with
  | none => ""
  | some cs => String.mk cs

/-- Try to match `r` anchored at the current state.  The fuel bounds the
nesting depth of matcher calls; along any chain of nested calls each
position of the input is visited by at most `r.rsize` subterm descents,
so `(|rest| + 2) * (rsize + 2)` always suffices. -/
def matchAt (r : Rx) (st : MSt) : Option (MSt × Caps) :=
  mtch ((st.rest.length + 2) * (r.rsize + 2)) r st [] (fun st' cp => some (st', cp))

/-- Scan forward for the leftmost match (Python `re.search` starting at
the given state), structurally on the remaining input. -/
def searchFromL (r : Rx) : List Char → Option Char → Nat → Option MRec
  | rest, prev, pos =>
    match matchAt r ⟨rest, prev, pos⟩ with
    | some (st', cp) =>
      some ⟨pos, st'.pos, rest.take (st'.pos - pos), cp⟩
    | none =>
      match rest with
      | [] => none
      | c :: cs => searchFromL r cs (some c) (pos + 1)

/-- `searchFromL` packaged on a matcher state. -/
def searchFrom (r : Rx) (st : MSt) : Option MRec :=
  searchFromL r st.rest st.prev st.pos

/-- Initial matcher state for an input. -/
def initSt (s : List Char) : MSt := ⟨s, none, 0⟩

/-- Python `re.search`. -/
def rsearch (r : Rx) (s : List Char) : Option MRec := searchFrom r (initSt s)

/-- All non-overlapping matches from a state (Python `re.finditer`); an
empty match advances by one character, as CPython does. -/
def finditerFrom (fuel : Nat) (r : Rx) (st : MSt) : List MRec :=
  match fuel with
  | 0 => []
  | fuel + 1 =>
    match searchFrom r st with
    | none => []
    | some m =>
      let dropped := m.stop - st.pos
      let rest' := st.rest.drop dropped
      let prev' := if dropped = 0 then st.prev else (st.rest.take dropped).getLast?
      if m.stop > st.pos then
        m :: finditerFrom fuel r ⟨rest', prev', m.stop⟩
      else
        match rest' with
        | [] => [m]
        | c :: cs => m :: finditerFrom fuel r ⟨cs, some c, m.stop + 1⟩

/-- Python `re.finditer`. -/
def finditer (r : Rx) (s : List Char) : List MRec :=
  finditerFrom (s.length + 1) r (initSt s)

/-- Concatenation of a list of expressions. -/
def rseq (l : List Rx) : Rx := l.foldr .seq .eps

/-- Ordered alternation of a list of expressions (first preferred). -/
def ralt : List Rx → Rx
  | [] => .eps
  | [r] => r
  | r :: rs => .alt r (ralt rs)

/-- Literal string. -/
def rstr (s : String) : Rx := .lit s.data

/-- Greedy `+`, i.e. `r r*`. -/
def rplus (r : Rx) : Rx := .seq r (.star r)

/-- Case-insensitive literal string (for patterns compiled with
`re.IGNORECASE`). -/
def rstrCI (s : String) : Rx :=
  rseq (s.data.map (fun c => .cls ⟨false, [c.toLower, c.toUpper], []⟩))

/-- Negated character class over explicit characters. -/
def negCls (s : String) : CClass := ⟨true, s.data, []⟩

/-- Python's `\s` characters: space, tab, newline, vertical tab, form
feed, carriage return. -/
def pySpace : String := " \t\n\x0b\x0c\r"

/-- The class `\s`. -/
def spaceR : CClass := ⟨false, pySpace.data, []⟩

/-- The class `\w` (ASCII). -/
def wordR : CClass := ⟨false, ['_'], [('a', 'z'), ('A', 'Z'), ('0', '9')]⟩

/-- The class `[\w\.]`. -/
def wordDotR : CClass := ⟨false, ['_', '.'], [('a', 'z'), ('A', 'Z'), ('0', '9')]⟩

/-- The class `[a-zA-Z_]`. -/
def alphaUR : CClass := ⟨false, ['_'], [('a', 'z'), ('A', 'Z')]⟩

/-- The class `[\w<>[\],\s]` used for Java type tokens. -/
def typeR : CClass :=
  ⟨false, ['_', '<', '>', '[', ']', ','] ++ pySpace.data, [('a', 'z'), ('A', 'Z'), ('0', '9')]⟩

/-- The class `[\w,\s]` (throws clause). -/
def wordCommaSpR : CClass :=
  ⟨false, ['_', ','] ++ pySpace.data, [('a', 'z'), ('A', 'Z'), ('0', '9')]⟩

/-- The class `[\w\.,\s]` (implements clause). -/
def implR : CClass :=
  ⟨false, ['_', '.', ','] ++ pySpace.data, [('a', 'z'), ('A', 'Z'), ('0', '9')]⟩

/-- `\s` -/
def rsp : Rx := .cls spaceR
/-- `\s*` -/
def rsps : Rx := .star rsp
/-- `\s+` -/
def rspp : Rx := rplus rsp
/-- `\w` -/
def rword : Rx := .cls wordR
/-- `.` under `re.DOTALL` -/
def rdotAll : Rx := .cls ⟨true, [], []⟩
/-- `.` without `re.DOTALL` -/
def rdot : Rx := .cls (negCls "\n")
/-- Python's non-multiline `$` inside a look-ahead context:
end of input, or a final newline then end. -/
def rdollar : Rx := .seq (.opt (rstr "\n")) .eos

/-- Python `re.sub` with a constant replacement string. -/
def rsub (r : Rx) (repl : String) (s : List Char) : List Char :=
  let ms := finditer r s
  let rec go (pos : Nat) (rest : List Char) (ms : List MRec) : List Char :=
    match ms with
    | [] => rest
    | m :: ms' =>
      let pre := rest.take (m.start - pos)
      let post := rest.drop (m.stop - pos)
      pre ++ repl.data ++ go m.stop post ms'
  go 0 s ms

/-- Is `c` one of Python's `\s` characters? -/
def isPySpace (c : Char) : Bool := pySpace.data.contains c

/-- Python `str.strip()`. -/
def pyStrip (s : String) : String :=
  String.mk (((s.data.dropWhile isPySpace).reverse.dropWhile isPySpace).reverse)

/-- Split a character list at every separator position (Python
`str.split(sep)`: empty pieces are kept). -/
def splitListP (isSep : Char → Bool) (l : List Char) : List (List Char) :=
  l.foldr (fun c acc =>
    match acc with
    | [] => if isSep c then [[], []] else [[c]]
    | cur :: rest => if isSep c then [] :: cur :: rest else (c :: cur) :: rest) [[]]

/-- Python `str.split(sep)` for a one-character separator. -/
def splitOnChar (sep : Char) (s : String) : List String :=
  (splitListP (· = sep) s.data).map String.mk

/-- Python `str.replace(pat, repl)` (all occurrences; `pat` nonempty at
call sites).  The fuel is the input length, enough for the left-to-right
scan. -/
def pyReplaceAux (pat repl : List Char) : Nat → List Char → List Char
  | _, [] => []
  | 0, l => l
  | fuel + 1, c :: cs =>
    if pat.isPrefixOf (c :: cs) then
      repl ++ pyReplaceAux pat repl fuel ((c :: cs).drop pat.length)
    else
      c :: pyReplaceAux pat repl fuel cs

/-- Python `str.replace`. -/
def pyReplace (s pat repl : String) : String :=
  String.mk (pyReplaceAux pat.data repl.data s.data.length s.data)

/-- Python `str.split()` with no argument: split on whitespace runs,
dropping empty pieces. -/
def pySplitWs (s : String) : List String :=
  ((splitListP isPySpace s.data).map String.mk).filter (· ≠ "")

/-- Python `str.capitalize()`: first character upper-cased, the rest
lower-cased. -/
def pyCapitalize (s : String) : String :=
  match s.data with
  | [] => ""
  | c :: cs => String.mk (c.toUpper :: cs.map Char.toLower)

/-! ## CodeIdentifierExtractor -/

/-- `ElementType` enumeration from `CodeIdentifierExtractor.py`. -/
inductive ElementType where
  | CLASS | INTERFACE | ENUM | METHOD | FIELD | CONSTRUCTOR | ANNOTATION
  deriving Repr, DecidableEq

/-- Python `str(ElementType.X)`, i.e. `"ElementType.X"`. -/
def ElementType.pyStr : ElementType → String
  | .CLASS => "ElementType.CLASS"
  | .INTERFACE => "ElementType.INTERFACE"
  | .ENUM => "ElementType.ENUM"
  | .METHOD => "ElementType.METHOD"
  | .FIELD => "ElementType.FIELD"
  | .CONSTRUCTOR => "ElementType.CONSTRUCTOR"
  | .ANNOTATION => "ElementType.ANNOTATION"

/-- `ElementType[keyword.upper()]` for the keywords matched by the class
pattern. -/
def elementTypeOfKeyword (s : String) : ElementType :=
  if s = "interface" then .INTERFACE else if s = "enum" then .ENUM else .CLASS

/-- `Parameter` dataclass. -/
structure JParameter where
  name : String
  type : String
  annotations : List String
  deriving Repr, DecidableEq

/-- `MethodInfo` dataclass. -/
structure MethodInfo where
  name : String
  return_type : String
  parameters : List JParameter
  annotations : List String
  modifiers : List String
  is_constructor : Bool
  deriving Repr, DecidableEq

/-- A field record (the dict built by `extract_fields`). -/
structure FieldInfo where
  name : String
  type : String
  annotations : List String
  modifiers : List String
  initializer : Option String
  deriving Repr, DecidableEq

/-- `ClassInfo` dataclass. -/
structure ClassInfo where
  name : String
  type : ElementType
  annotations : List String
  modifiers : List String
  /-- the `extends` field (renamed: `extends` is a Lean keyword) -/
  extendsClause : Option String
  implements : List String
  methods : List MethodInfo
  fields : List FieldInfo
  deriving Repr, DecidableEq

/-- `self.class_pattern`.  Group 1 = annotations, 2 = modifiers (inside
the repetition, so it keeps the last modifier only), 3 = type keyword,
4 = name, 5 = extends, 6 = implements. -/
def class_pattern : Rx :=
  rseq [
    .grp 1 (.star (rseq [rstr "@", rplus (.cls wordDotR),
      .opt (rseq [rstr "(", .star (.cls (negCls ")")), rstr ")"]), rsps])),
    rsps,
    .star (.grp 2 (rseq [ralt [rstr "public", rstr "protected", rstr "private",
      rstr "static", rstr "final", rstr "abstract"], rspp])),
    .grp 3 (ralt [rstr "class", rstr "interface", rstr "enum"]), rspp,
    .grp 4 (rplus rword),
    .opt (rseq [rspp, rstr "extends", rspp, .grp 5 (rplus (.cls wordDotR))]),
    .opt (rseq [rspp, rstr "implements", rspp, .grp 6 (rplus (.cls implR))]),
    rsps, rstr "\x7b" ]

/-- `self.method_pattern`.  Group 1 = annotations, 2 = modifiers (last
iteration), 3 = return type, 4 = name, 5 = parameter list. -/
def method_pattern : Rx :=
  rseq [
    .grp 1 (.star (rseq [rstr "@", rplus rword,
      .opt (rseq [rstr "(", .star (.cls (negCls ")")), rstr ")"]), rsps])),
    rsps,
    .star (.grp 2 (rseq [ralt [rstr "public", rstr "private", rstr "protected",
      rstr "static", rstr "final", rstr "abstract", rstr "synchronized"], rspp])),
    .grp 3 (rplus (.cls typeR)), rspp,
    .grp 4 (rplus rword), rsps,
    rstr "(", .grp 5 (.star (.cls (negCls ")"))), rstr ")", rsps,
    .opt (rseq [rstr "throws", rspp, rplus (.cls wordCommaSpR)]),
    rsps, rstr "\x7b" ]

/-- `self.field_pattern`.  Group 1 = annotations, 2 = modifiers (last
iteration), 3 = type, 4 = name, 5 = initializer. -/
def field_pattern : Rx :=
  rseq [
    .grp 1 (.star (rseq [rstr "@", rplus rword,
      .opt (rseq [rstr "(", .star (.cls (negCls ")")), rstr ")"]), rsps])),
    rsps,
    .star (.grp 2 (rseq [ralt [rstr "public", rstr "private", rstr "protected",
      rstr "static", rstr "final", rstr "volatile", rstr "transient"], rspp])),
    .grp 3 (rplus (.cls typeR)), rspp,
    .grp 4 (rplus rword), rsps,
    .opt (rseq [rstr "=", rsps, .grp 5 (rplus (.cls (negCls ";")))]),
    rstr ";" ]

/-- `self.annotation_pattern`: `@(\w+)(?:\([^)]*\))?`. -/
def annotation_pattern : Rx :=
  rseq [rstr "@", .grp 1 (rplus rword),
    .opt (rseq [rstr "(", .star (.cls (negCls ")")), rstr ")"])]

/-- `self.parameter_pattern`.  Group 1 = annotations, 2 = type, 3 = name. -/
def parameter_pattern : Rx :=
  rseq [
    .grp 1 (.star (rseq [rstr "@", rplus rword,
      .opt (rseq [rstr "(", .star (.cls (negCls ")")), rstr ")"]), rsps])),
    .grp 2 (rplus (.cls typeR)), rspp,
    .grp 3 (rplus rword) ]

/-- `extract_annotations`. -/
def extract_annotations (annotations_str : String) : List String :=
  (finditer annotation_pattern annotations_str.data).map (fun m => m.groupD 1)

/-- `_extract_parameters`. -/
def extract_parameters (parameters_str : String) : List JParameter :=
  if pyStrip parameters_str = "" then []
  else
    (finditer parameter_pattern parameters_str.data).map fun m =>
      { name := m.groupD 3
        type := pyStrip (m.groupD 2)
        annotations := extract_annotations (m.groupD 1) }

/-- `extract_methods`. -/
def extract_methods (content : String) (class_name : Option String) : List MethodInfo :=
  (finditer method_pattern content.data).map fun m =>
    { name := m.groupD 4
      return_type := pyStrip (m.groupD 3)
      parameters := extract_parameters (m.groupD 5)
      annotations := extract_annotations (m.groupD 1)
      modifiers := pySplitWs (m.groupD 2)
      is_constructor :=
        match class_name with
        | some cn => m.groupD 4 = cn
        | none => false }

/-- `extract_fields`. -/
def extract_fields (content : String) : List FieldInfo :=
  (finditer field_pattern content.data).map fun m =>
    { name := m.groupD 4
      type := pyStrip (m.groupD 3)
      annotations := extract_annotations (m.groupD 1)
      modifiers := pySplitWs (m.groupD 2)
      initializer := (m.group 5).map (fun cs => pyStrip (String.mk cs)) }

/-! ### `_extract_block_content`, the lexical block scanner -/

/-- Scanner state of `_extract_block_content`: nesting depth (may go
negative, as in the source), string/char/comment flags, the opening
quote character, and the position of the opening brace (`start_pos`,
`none` standing for the source's `-1`). -/
structure ScanSt where
  depth : Int
  inString : Bool
  inChar : Bool
  inComment : Bool
  stringChar : Option Char
  startPos : Option Nat
  deriving Repr, DecidableEq

/-- Initial scanner state. -/
def ScanSt.init : ScanSt := ⟨0, false, false, false, none, none⟩

/-- One iteration of the scanner loop on character `c` at index `i`
(`next` is the character at `i + 1` for the line-comment look-ahead),
mirroring the `elif` chain of the source.  The second component, when
present, is the recorded `start_pos`: the loop returns
`content[start_pos + 1 : i]` at that point. -/
def ebcStep (st : ScanSt) (i : Nat) (c : Char) (next : Option Char) :
    ScanSt × Option Nat :=
  if c = '"' ∨ c = '\'' then
    (if ¬st.inComment ∧ ¬st.inChar then
      (if ¬st.inString then { st with inString := true, stringChar := some c }
       else if st.stringChar = some c then { st with inString := false }
       else st)
     else st, none)
  else if c = '`' then
    (if ¬st.inComment ∧ ¬st.inString then { st with inChar := ¬st.inChar } else st,
     none)
  else if c = '/' ∧ next.isSome then
    (if ¬st.inString ∧ ¬st.inChar ∧ ¬st.inComment ∧ next = some '/' then
       { st with inComment := true }
     else st, none)
  else if c = '\n' then ({ st with inComment := false }, none)
  else if ¬st.inString ∧ ¬st.inChar ∧ ¬st.inComment then
    if c = '\x7b' then
      let d := st.depth + 1
      ({ st with depth := d, startPos := if d = 1 then some i else st.startPos }, none)
    else if c = '\x7d' then
      let d := st.depth - 1
      ({ st with depth := d },
       if d = 0 ∧ st.startPos.isSome then some (st.startPos.getD 0) else none)
    else (st, none)
  else (st, none)

/-- The scanner loop: returns the slice bounds `(start_pos + 1, i)` of
the block body, or `none` when the loop runs off the end (syntax
error). -/
def ebcAux : ScanSt → Nat → List Char → Option (Nat × Nat)
  | _, _, [] => none
  | st, i, c :: cs =>
    match ebcStep st i c cs.head? with
    | (_, some s) => some (s + 1, i)
    | (st', none) => ebcAux st' (i + 1) cs

/-- `_extract_block_content`: the content between the first `{` and its
matching `}`, or `""` on unbalanced input. -/
def extract_block_content (content : String) : String :=
  match ebcAux ScanSt.init 0 content.data with
  | some (a, b) => String.mk ((content.data.take b).drop a)
  | none => ""

/-- `extract_classes`. -/
def extract_classes (content : String) : List ClassInfo :=
  (finditer class_pattern content.data).map fun m =>
    let class_name := m.groupD 4
    let class_block := extract_block_content (String.mk (content.data.drop (m.stop - 1)))
    { name := class_name
      type := elementTypeOfKeyword (m.groupD 3)
      annotations := extract_annotations (m.groupD 1)
      modifiers := pySplitWs (m.groupD 2)
      extendsClause := (m.group 5).map String.mk
      implements := ((splitOnChar ',' (m.groupD 6)).map pyStrip).filter (· ≠ "")
      methods := extract_methods class_block (some class_name)
      fields := extract_fields class_block }

/-! ## Small Python string helpers -/

/-- Python `str.lstrip()`. -/
def pyLStrip (s : String) : String := String.mk (s.data.dropWhile isPySpace)

/-- Python `str.upper()` (ASCII inputs). -/
def pyUpper (s : String) : String := String.mk (s.data.map Char.toUpper)

/-- Count newline characters (for the `content.count('\n', 0, pos)`
line-number computations). -/
def countNl (l : List Char) : Nat := l.countP (· = '\n')

/-- Insert into a list sorted by `key`, after existing equal keys. -/
def insertByKeyLe (key : α → Nat) (a : α) : List α → List α
  | [] => [a]
  | b :: bs => if key b ≤ key a then b :: insertByKeyLe key a bs else a :: b :: bs

/-- Python `sorted(l, key=key)`: stable ascending sort. -/
def stableSortByKey (key : α → Nat) (l : List α) : List α :=
  l.foldl (fun acc a => insertByKeyLe key a acc) []

/-- Python `os.path.basename` (POSIX): everything after the last `/`. -/
def pyBasename (s : String) : String :=
  String.mk ((s.data.reverse.takeWhile (· ≠ '/')).reverse)

/-- The root part of Python `os.path.splitext` applied to a basename:
cut at the last dot unless everything before it is dots. -/
def pySplitextRoot (s : String) : String :=
  let cs := s.data
  match (List.range cs.length).filter (fun i => cs.getD i ' ' = '.') |>.getLast? with
  | none => s
  | some i =>
    let namePart := cs.take i
    if namePart.all (· = '.') then s else String.mk namePart

/-! ## ConfigFileParser (the part used on Java sources) -/

/-- `self.package_pattern`: `package\s+([a-zA-Z_][\w.]*)\s*;`. -/
def package_pattern : Rx :=
  rseq [rstr "package", rspp,
    .grp 1 (.seq (.cls alphaUR) (.star (.cls wordDotR))), rsps, rstr ";"]

/-- `ConfigFileParser.extract_package`. -/
def extract_package (content : String) : Option String :=
  (rsearch package_pattern content.data).map (fun m => m.groupD 1)

/-! ## DependencyMapper -/

/-- `self.import_pattern`: `import\s+(?:static\s+)?([a-zA-Z_][\w.]*\*?)\s*;`. -/
def import_pattern : Rx :=
  rseq [rstr "import", rspp, .opt (.seq (rstr "static") rspp),
    .grp 1 (rseq [.cls alphaUR, .star (.cls wordDotR), .opt (rstr "*")]),
    rsps, rstr ";"]

/-- `DependencyMapper.extract_imports`. -/
def extract_imports (content : String) : List String :=
  (finditer import_pattern content.data).map (fun m => m.groupD 1)

/-- A parsed XML element: tag (with the Maven namespace already
resolved, as the source's `{'mvn': ...}` map does), text content, and
child elements.  This models the tree that `xml.etree.ElementTree.parse`
hands to `extract_maven_dependencies`; the XML parsing itself is
standard-library code outside this repository. -/
inductive XmlElem where
  | node (tag : String) (text : Option String) (kids : List XmlElem)

/-- Element tag. -/
def XmlElem.tag : XmlElem → String
  | .node t _ _ => t

/-- Element text (`Element.text`, `None` for an empty element). -/
def XmlElem.text : XmlElem → Option String
  | .node _ x _ => x

/-- Child elements. -/
def XmlElem.kids : XmlElem → List XmlElem
  | .node _ _ k => k

mutual
/-- All proper descendants in document order
(`root.findall('.//tag')` traverses these). -/
def XmlElem.descendants : XmlElem → List XmlElem
  | .node _ _ kids => descendantsList kids

/-- Each element of the list followed by its descendants. -/
def descendantsList : List XmlElem → List XmlElem
  | [] => []
  | k :: ks => k :: (XmlElem.descendants k ++ descendantsList ks)
end

/-- `Element.find`: first direct child with the given tag. -/
def XmlElem.findChild (e : XmlElem) (t : String) : Option XmlElem :=
  e.kids.find? (fun k => k.tag = t)

/-- `Dependency` dataclass.  All fields come from `Element.text`, which
is `None` for empty elements, so they are `Option`s. -/
structure Dependency where
  group_id : Option String
  artifact_id : Option String
  version : Option String
  scope : Option String
  deriving Repr, DecidableEq

/-- The per-dependency loop body of `extract_maven_dependencies`: a
`dependency` element yields a record when its `groupId` and `artifactId`
children exist; a missing `version` element gives `None` and a missing
`scope` element gives `'compile'`. -/
def dependencyOfElem (dep : XmlElem) : Option Dependency :=
  match dep.findChild "groupId", dep.findChild "artifactId" with
  | some g, some a =>
    some { group_id := g.text
           artifact_id := a.text
           version := match dep.findChild "version" with
             | some v => v.text
             | none => none
           scope := match dep.findChild "scope" with
             | some s => s.text
             | none => some "compile" }
  | _, _ => none

/-- `DependencyMapper.extract_maven_dependencies`, over the parsed
descriptor tree. -/
def extract_maven_dependencies (root : XmlElem) : List Dependency :=
  ((root.descendants).filter (fun e => e.tag = "dependency")).filterMap dependencyOfElem

/-- The Gradle dependency pattern:
`(?:implementation|compile|api|testImplementation|testCompile)\s*['"]([^:]+):([^:]+):([^'"]+)['"]`. -/
def gradle_dependency_pattern : Rx :=
  rseq [ralt [rstr "implementation", rstr "compile", rstr "api",
      rstr "testImplementation", rstr "testCompile"],
    rsps, .cls ⟨false, ['\'', '"'], []⟩,
    .grp 1 (rplus (.cls (negCls ":"))), rstr ":",
    .grp 2 (rplus (.cls (negCls ":"))), rstr ":",
    .grp 3 (rplus (.cls (negCls "'\""))),
    .cls ⟨false, ['\'', '"'], []⟩]

/-- `DependencyMapper.extract_gradle_dependencies`, over the descriptor's
text (the source reads the file itself; reading is modelled by passing
the contents). -/
def extract_gradle_dependencies (content : String) : List Dependency :=
  (finditer gradle_dependency_pattern content.data).map fun m =>
    { group_id := some (m.groupD 1)
      artifact_id := some (m.groupD 2)
      version := some (m.groupD 3)
      scope := some "compile" }

/-! ## CommentProcessor -/

/-- `CommentType` enumeration. -/
inductive CommentType where
  | SINGLE_LINE | MULTI_LINE | JAVADOC | TODO | FIXME | DEPRECATED
  deriving Repr, DecidableEq

/-- `CommentType.value`. -/
def CommentType.value : CommentType → String
  | .SINGLE_LINE => "single_line"
  | .MULTI_LINE => "multi_line"
  | .JAVADOC => "javadoc"
  | .TODO => "todo"
  | .FIXME => "fixme"
  | .DEPRECATED => "deprecated"

/-- `CommentInfo` dataclass (tags are always lists at the
`extract_comments` construction sites). -/
structure CommentInfo where
  type : CommentType
  content : String
  line_number : Nat
  associated_element : Option String
  tags : List String
  deriving Repr, DecidableEq

/-- `//.*?$` with `re.MULTILINE`. -/
def single_line_pattern : Rx := rseq [rstr "//", .starL rdot, .eolM]

/-- `/\*(?!\*).*?\*/` with `re.DOTALL`. -/
def multi_line_pattern : Rx :=
  rseq [rstr "/*", .look false (rstr "*"), .starL rdotAll, rstr "*/"]

/-- `/\*\*.*?\*/` with `re.DOTALL`. -/
def javadoc_pattern : Rx := rseq [rstr "/**", .starL rdotAll, rstr "*/"]

/-- `(?i)TODO[:\s]*(.*?)(?=\n|$)`. -/
def todo_pattern : Rx :=
  rseq [rstrCI "TODO", .star (.cls ⟨false, ':' :: pySpace.data, []⟩),
    .grp 1 (.starL rdot), .look true (.alt (rstr "\n") .eos)]

/-- `(?i)FIXME[:\s]*(.*?)(?=\n|$)`. -/
def fixme_pattern : Rx :=
  rseq [rstrCI "FIXME", .star (.cls ⟨false, ':' :: pySpace.data, []⟩),
    .grp 1 (.starL rdot), .look true (.alt (rstr "\n") .eos)]

/-- `@(\w+)\s*(.*?)(?=@|\*/|$)` with `re.DOTALL`. -/
def javadoc_tag_pattern : Rx :=
  rseq [rstr "@", .grp 1 (rplus rword), rsps, .grp 2 (.starL rdotAll),
    .look true (ralt [rstr "@", rstr "*/", rdollar])]

/-- The class `[\w\<\>\[\]]`. -/
def elemTypeR : CClass :=
  ⟨false, ['_', '<', '>', '[', ']'], [('a', 'z'), ('A', 'Z'), ('0', '9')]⟩

/-- `self.element_pattern` (associated class/method/field finder). -/
def element_pattern : Rx :=
  rseq [rplus (ralt [rstr "public", rstr "private", rstr "protected", rstr "static",
      rstr "final", rstr "native", rstr "synchronized", rstr "abstract", rstr "transient"]),
    rspp, rplus (.cls elemTypeR), rspp, .grp 1 (rplus rword)]

/-- `_clean_comment`. -/
def clean_comment (comment : String) : String :=
  let c1 := rsub (ralt [.seq (rstr "/") (rplus (rstr "*")),
    .seq (rplus (rstr "*")) (rstr "/")]) "" comment.data
  let c2 := rsub (rseq [.bolM, rstr "//", rsps]) "" c1
  let c3 := rsub (rseq [.bolM, rsps, rstr "*", .opt rsp]) "" c2
  let c4 := rsub (rplus rsp) " " c3
  pyStrip (String.mk c4)

/-- `_extract_javadoc_tags`. -/
def extract_javadoc_tags (comment : String) : List String :=
  (finditer javadoc_tag_pattern comment.data).map (fun m => m.groupD 1)

/-- `extract_comments`. -/
def extract_comments (content : String) : List CommentInfo :=
  let cs := content.data
  let javadocs := (finditer javadoc_pattern cs).map (fun m =>
    let comment_text := String.mk m.whole
    let next_content := pyLStrip (String.mk (cs.drop m.stop))
    let associated := (rsearch element_pattern next_content.data).map (fun em => em.groupD 1)
    { type := CommentType.JAVADOC
      content := clean_comment comment_text
      line_number := countNl (cs.take m.start) + 1
      associated_element := associated
      tags := extract_javadoc_tags comment_text })
  let multis := ((finditer multi_line_pattern cs).filter
      (fun m => ¬((cs.drop m.start).take 3 = "/**".data))).map (fun m =>
    let comment_text := String.mk m.whole
    let searchTodo := rsearch todo_pattern comment_text.data
    let searchFixme := rsearch fixme_pattern comment_text.data
    let (ty, tags) :=
      if searchTodo.isSome then (CommentType.TODO, ["TODO"])
      else if searchFixme.isSome then (CommentType.FIXME, ["FIXME"])
      else (CommentType.MULTI_LINE, [])
    { type := ty
      content := clean_comment comment_text
      line_number := countNl (cs.take m.start) + 1
      associated_element := none
      tags := tags })
  let singles := (finditer single_line_pattern cs).map (fun m =>
    let comment_text := String.mk m.whole
    let searchTodo := rsearch todo_pattern comment_text.data
    let searchFixme := rsearch fixme_pattern comment_text.data
    let (ty, tags) :=
      if searchTodo.isSome then (CommentType.TODO, ["TODO"])
      else if searchFixme.isSome then (CommentType.FIXME, ["FIXME"])
      else (CommentType.SINGLE_LINE, [])
    { type := ty
      content := clean_comment comment_text
      line_number := countNl (cs.take m.start) + 1
      associated_element := none
      tags := tags })
  stableSortByKey (fun c => c.line_number) (javadocs ++ multis ++ singles)

/-! ## LoggingAnalyzer -/

/-- One extracted logging statement (the dict built by `extract_logs`). -/
structure LogInfo where
  framework : String
  level : String
  message : String
  /-- the `variables` list (renamed: `variables` clashes with Lean syntax) -/
  varNames : List String
  pattern_type : String
  line_number : Nat
  deriving Repr, DecidableEq

/-- `[^)]+` -/
def rmsg : Rx := rplus (.cls (negCls ")"))

/-- log4j pattern (IGNORECASE):
`(?:log|logger|LOG)\.(?P<level>trace|debug|info|warn|error|fatal)\s*\(\s*(?P<message>[^)]+)\)`. -/
def log4j_pattern : Rx :=
  rseq [ralt [rstrCI "log", rstrCI "logger", rstrCI "LOG"], rstr ".",
    .grp 1 (ralt [rstrCI "trace", rstrCI "debug", rstrCI "info", rstrCI "warn",
      rstrCI "error", rstrCI "fatal"]),
    rsps, rstr "(", rsps, .grp 2 rmsg, rstr ")"]

/-- slf4j pattern (IGNORECASE): as log4j without `fatal`. -/
def slf4j_pattern : Rx :=
  rseq [ralt [rstrCI "log", rstrCI "logger", rstrCI "LOG"], rstr ".",
    .grp 1 (ralt [rstrCI "trace", rstrCI "debug", rstrCI "info", rstrCI "warn",
      rstrCI "error"]),
    rsps, rstr "(", rsps, .grp 2 rmsg, rstr ")"]

/-- java.util.logging pattern (IGNORECASE). -/
def java_util_pattern : Rx :=
  rseq [rstrCI "Logger", rstr ".", .opt (rstrCI "get"),
    ralt [rstrCI "Global", rstrCI "getLogger"],
    rstr "(", rplus (.cls (negCls ")")), rstr ")", rstr ".",
    .grp 1 (ralt [rstrCI "severe", rstrCI "warning", rstrCI "info", rstrCI "fine",
      rstrCI "finer", rstrCI "finest"]),
    rsps, rstr "(", rsps, .grp 2 rmsg, rstr ")"]

/-- System.out pattern (IGNORECASE):
`System\.(?P<level>out|err)\.println\s*\(\s*(?P<message>[^)]+)\)`. -/
def system_out_pattern : Rx :=
  rseq [rstrCI "System", rstr ".", .grp 1 (ralt [rstrCI "out", rstrCI "err"]),
    rstr ".", rstrCI "println", rsps, rstr "(", rsps, .grp 2 rmsg, rstr ")"]

/-- `_normalize_log_level` (the `framework` argument is unused, as in the
source). -/
def normalize_log_level (level : String) (_framework : String) : String :=
  if level = "SEVERE" then "ERROR"
  else if level = "WARNING" then "WARN"
  else if level = "FINE" then "DEBUG"
  else if level = "FINER" then "DEBUG"
  else if level = "FINEST" then "TRACE"
  else if level = "OUT" then "INFO"
  else if level = "ERR" then "ERROR"
  else level

/-- The class `[0-9]`. -/
def digitR : CClass := ⟨false, [], [('0', '9')]⟩

/-- `_extract_variables`. -/
def extract_variables (message : String) : List String :=
  let p1 := rseq [rstr "\x7b", .grp 1 (.star (.cls digitR)), rstr "\x7d"]
  let p2 := rseq [rstr "%", .grp 1 (.cls ⟨false, "sdfbx".data, []⟩)]
  let p3 := rseq [rstr "$\x7b", .grp 1 (rplus (.cls (negCls "\x7d"))), rstr "\x7d"]
  let p4 := rseq [.grp 1 (.seq (.cls alphaUR) (.star rword)), rsps, rstr "+"]
  ([p1, p2, p3, p4].map (fun p =>
    ((finditer p message.data).map (fun m => m.groupD 1)).filter (· ≠ ""))).flatten

/-- `_identify_message_pattern`. -/
def identify_message_pattern (message : String) : String :=
  if message.data.contains '\x7b' ∧ message.data.contains '\x7d' then "placeholder"
  else if message.data.contains '%' ∧ "sdfbx".data.any (fun c => message.data.contains c) then
    "printf"
  else if message.data.contains '+' then "concatenation"
  else "simple"

/-- `extract_logs`: frameworks in the dict's insertion order. -/
def extract_logs (content : String) : List LogInfo :=
  ([("log4j", log4j_pattern), ("slf4j", slf4j_pattern),
    ("java_util", java_util_pattern), ("system_out", system_out_pattern)].map
    (fun fp =>
      (finditer fp.2 content.data).map (fun m =>
        let level := pyUpper (m.groupD 1)
        let message := m.groupD 2
        { framework := fp.1
          level := normalize_log_level level fp.1
          message := pyStrip message
          varNames := extract_variables message
          pattern_type := identify_message_pattern message
          line_number := countNl (content.data.take m.start) + 1 }))).flatten

/-! ## IntegrationMapper -/

/-- One integration record (the dicts built by `extract_integrations`);
only the fields the graph assembly reads are carried, plus the detail
string for fidelity. -/
structure Integration where
  type : String
  /-- `None` in Python when no service name can be derived -/
  name : Option String
  detail : String
  deriving Repr, DecidableEq

/-- `(https?://[^\s'",;]+)` (IGNORECASE). -/
def url_pattern : Rx :=
  .grp 1 (rseq [rstrCI "http", .opt (rstrCI "s"), rstr "://",
    rplus (.cls (negCls (pySpace ++ "'\",;")))])

/-- `https?://([^/]+)/?` (case-sensitive, in
`_extract_service_name_from_url`). -/
def urlname_pattern : Rx :=
  rseq [rstr "http", .opt (rstr "s"), rstr "://",
    .grp 1 (rplus (.cls (negCls "/"))), .opt (rstr "/")]

/-- `_extract_service_name_from_url`. -/
def extract_service_name_from_url (url : String) : Option String :=
  match rsearch urlname_pattern url.data with
  | some m =>
    let domain := pyReplace (m.groupD 1) "www." ""
    let parts := splitOnChar '.' domain
    if parts.length ≥ 2 then some (parts.getD (parts.length - 2) "")
    else some (parts.getD 0 "")
  | none => none

/-- `\b(new\s+[A-Za-z_][\w\.]+Client\s*\([^\)]*\))` (IGNORECASE). -/
def sdk_init_pattern : Rx :=
  rseq [.bnd, .grp 1 (rseq [rstrCI "new", rspp, .cls alphaUR, rplus (.cls wordDotR),
    rstrCI "Client", rsps, rstr "(", .star (.cls (negCls ")")), rstr ")"])]

/-- `new\s+([\w\.]+Client)` (case-sensitive, in `_extract_class_name`). -/
def sdk_class_pattern : Rx :=
  rseq [rstr "new", rspp, .grp 1 (.seq (rplus (.cls wordDotR)) (rstr "Client"))]

/-- `_extract_class_name`. -/
def extract_class_name (initialization_str : String) : Option String :=
  (rsearch sdk_class_pattern initialization_str.data).map (fun m => m.groupD 1)

/-- `\bDriverManager\.getConnection\s*\([^\)]*\)` (IGNORECASE). -/
def service_connection_pattern : Rx :=
  rseq [.bnd, rstrCI "DriverManager", rstr ".", rstrCI "getConnection",
    rsps, rstr "(", .star (.cls (negCls ")")), rstr ")"]

/-- The class `[A-Za-z0-9_\-]`. -/
def credValR : CClass := ⟨false, ['_', '-'], [('a', 'z'), ('A', 'Z'), ('0', '9')]⟩

/-- The credentials pattern (IGNORECASE). -/
def credentials_pattern : Rx :=
  rseq [.bnd, .grp 1 (ralt [rstrCI "api_key", rstrCI "api_secret", rstrCI "client_id",
      rstrCI "client_secret", rstrCI "token"]), .bnd,
    rsps, .cls ⟨false, [':', '='], []⟩, rsps,
    .opt (.cls ⟨false, ['\'', '"'], []⟩), .grp 2 (rplus (.cls credValR)),
    .opt (.cls ⟨false, ['\'', '"'], []⟩)]

/-- `extract_integrations`: URLs, then SDK initializations, then service
connections, then credentials. -/
def extract_integrations (content : String) : List Integration :=
  let urls := (finditer url_pattern content.data).map (fun m => m.groupD 1)
  let fromUrls := urls.map (fun url =>
    ({ type := "api_endpoint", name := extract_service_name_from_url url,
       detail := url } : Integration))
  let sdks := (finditer sdk_init_pattern content.data).map (fun m => m.groupD 1)
  let fromSdks := sdks.map (fun ini =>
    ({ type := "sdk_configuration", name := extract_class_name ini,
       detail := ini } : Integration))
  let conns := (finditer service_connection_pattern content.data).map
    (fun m => String.mk m.whole)
  let fromConns := conns.map (fun c =>
    ({ type := "service_connection", name := some "DatabaseConnection",
       detail := c } : Integration))
  let creds := (finditer credentials_pattern content.data).map
    (fun m => (m.groupD 1, m.groupD 2))
  let fromCreds := creds.map (fun kv =>
    ({ type := "credential", name := some kv.1, detail := kv.2 } : Integration))
  fromUrls ++ fromSdks ++ fromConns ++ fromCreds

/-! ## VersionAnalyzer -/

/-- `VersionConstraint` dataclass. -/
structure VersionConstraint where
  min_version : Option String := none
  max_version : Option String := none
  exact_version : Option String := none
  description : Option String := none
  deriving Repr, DecidableEq

/-- The class `[\d.]`. -/
def digitDotR : CClass := ⟨false, ['.'], [('0', '9')]⟩

/-- `@Target\(\"Java(\d+)\"\)` (IGNORECASE|DOTALL). -/
def java_version_pattern : Rx :=
  rseq [rstr "@", rstrCI "Target", rstr "(\"", rstrCI "Java",
    .grp 1 (rplus (.cls digitR)), rstr "\")"]

/-- `@Api\(.*?version\s*=\s*["\']([^"\']+)["\']` (IGNORECASE|DOTALL). -/
def api_version_pattern : Rx :=
  rseq [rstr "@", rstrCI "Api", rstr "(", .starL rdotAll, rstrCI "version",
    rsps, rstr "=", rsps, .cls ⟨false, ['"', '\''], []⟩,
    .grp 1 (rplus (.cls (negCls "\"'"))), .cls ⟨false, ['"', '\''], []⟩]

/-- `@since\s+([\d.]+)` (IGNORECASE|DOTALL). -/
def since_version_pattern : Rx :=
  rseq [rstr "@", rstrCI "since", rspp, .grp 1 (rplus (.cls digitDotR))]

/-- `@requires\s+([\d.]+)` (IGNORECASE|DOTALL). -/
def requires_version_pattern : Rx :=
  rseq [rstr "@", rstrCI "requires", rspp, .grp 1 (rplus (.cls digitDotR))]

/-- `@Deprecated(?:\([^)]*\))?\s*(?:/\*\*?\s*([^*]+)\**/)?` (IGNORECASE|DOTALL). -/
def deprecated_pattern : Rx :=
  rseq [rstr "@", rstrCI "Deprecated",
    .opt (rseq [rstr "(", .star (.cls (negCls ")")), rstr ")"]), rsps,
    .opt (rseq [rstr "/*", .opt (rstr "*"), rsps,
      .grp 1 (rplus (.cls (negCls "*"))), .star (rstr "*"), rstr "/"])]

/-- Set a key in an association list, overwriting in place (Python dict
assignment). -/
def assocSet (k : String) (v : β) : List (String × β) → List (String × β)
  | [] => [(k, v)]
  | (k', v') :: rest => if k' = k then (k, v) :: rest else (k', v') :: assocSet k v rest

/-- `extract_version_constraints`: patterns in the dict's insertion
order; each match assigns into the result dict (later matches of the
same pattern overwrite). -/
def extract_version_constraints (content : String) : List (String × VersionConstraint) :=
  let step := fun (acc : List (String × VersionConstraint)) (nm : String × Rx) =>
    (finditer nm.2 content.data).foldl (fun acc m =>
      if nm.1 = "deprecated" then
        assocSet "deprecated"
          { description := some (match m.group 1 with
              | some cs => if cs = [] then "Deprecated" else pyStrip (String.mk cs)
              | none => "Deprecated") } acc
      else if nm.1 = "since_version" then
        assocSet "since"
          { min_version := some (m.groupD 1),
            description := some "Available since version" } acc
      else if nm.1 = "requires_version" then
        assocSet "requires"
          { min_version := some (m.groupD 1),
            description := some "Required version" } acc
      else
        assocSet nm.1
          { exact_version := some (m.groupD 1),
            description := some (nm.1 ++ " requirement") } acc) acc
  [("java_version", java_version_pattern), ("api_version", api_version_pattern),
   ("since_version", since_version_pattern), ("requires_version", requires_version_pattern),
   ("deprecated", deprecated_pattern)].foldl step []

/-! ## LocalizationProcessor (the code-content side) -/

/-- One localization-usage record (the dicts returned by
`extract_localizations`). -/
structure LocalizationUse where
  path : String
  locale : String
  type : String
  deriving Repr, DecidableEq

/-- `\b([a-z]{2,3}(_[A-Z]{2})?)\b`. -/
def locale_pattern : Rx :=
  rseq [.bnd, .grp 1 (rseq [.cls ⟨false, [], [('a', 'z')]⟩, .cls ⟨false, [], [('a', 'z')]⟩,
    .opt (.cls ⟨false, [], [('a', 'z')]⟩),
    .opt (.grp 2 (rseq [rstr "_", .cls ⟨false, [], [('A', 'Z')]⟩,
      .cls ⟨false, [], [('A', 'Z')]⟩]))]), .bnd]

/-- One `getString`-style translation-key pattern. -/
def key_pattern (callee : String) : Rx :=
  rseq [rstr callee, rsps, rstr "(", rsps, rstr "\"",
    .grp 1 (rplus (.cls (negCls "\""))), rstr "\"", rsps, rstr ")"]

/-- `extract_localizations_from_code` followed by the reshaping in
`extract_localizations`: translation keys (four patterns, in order),
then locale identifiers, where Python's `''.join(tuple)` concatenates
both findall groups. -/
def extract_localizations (content : String) : List LocalizationUse :=
  let keyPatterns := [key_pattern "getString", key_pattern "getMessage",
    key_pattern "resources.getString", key_pattern "Locale.forLanguageTag"]
  let keys := (keyPatterns.map (fun p =>
    (finditer p content.data).map (fun m => m.groupD 1))).flatten
  let locales := (finditer locale_pattern content.data).map
    (fun m => m.groupD 1 ++ m.groupD 2)
  keys.map (fun k =>
    ({ path := k, locale := "unknown", type := "key_usage" } : LocalizationUse)) ++
  locales.map (fun l =>
    ({ path := "runtime", locale := l, type := "locale_definition" } : LocalizationUse))

/-! ## Graph assembly (`JavaCodeKnowledgeGraph` in `CntxtJV.py`)

The graph is `networkx.DiGraph`: node identifiers are strings, node
attributes are set at insertion (`add_node` on an existing node
overwrites its attributes; the `_add_*` helpers guard insertion with
`has_node`), and `add_edge` stores at most one edge per ordered pair,
overwriting the `relation` attribute on re-insertion and auto-creating
missing endpoints without attributes. -/

/-- Node attribute bags, one variant per `add_node` call site. -/
inductive NodeData where
  | file (path : String)
  | pkg (name : String)
  | imp (name : String)
  | clsN (ctype : String) (name : String)
  | mthd (name return_type : String) (parameters : List JParameter)
      (annotations modifiers : List String) (is_constructor : Bool)
  | ann (name : String)
  | cmt (comment_type content : String) (line_number : Nat)
      (associated_element : Option String) (tags : List String)
  | logS (level message : String)
  | integ (name : Option String) (url : String)
  | i18n (path locale : String)
  | build (path tool : String)
  | depN (group_id artifact_id : String) (version scope : Option String)
  /-- a node auto-created by `add_edge` with no attributes -/
  | auto
  deriving Repr, DecidableEq

/-- The directed property graph: insertion-ordered node and edge lists;
an edge is an ordered pair with its `relation` label. -/
structure Graph where
  nodes : List (String × NodeData)
  edges : List ((String × String) × String)
  deriving Repr, DecidableEq

/-- `graph.has_node`. -/
def Graph.hasNode (g : Graph) (id : String) : Bool :=
  g.nodes.any (fun p => p.1 = id)

/-- `graph.add_node`: insert, or overwrite the attributes of an existing
node. -/
def Graph.addNodeRaw (g : Graph) (id : String) (d : NodeData) : Graph :=
  if g.hasNode id then
    { g with nodes := g.nodes.map (fun p => if p.1 = id then (id, d) else p) }
  else
    { g with nodes := g.nodes ++ [(id, d)] }

/-- An edge: the ordered endpoint pair with its `relation` label. -/
abbrev Edge := (String × String) × String

/-- `add_edge`'s auto-creation of a missing endpoint (no attributes). -/
def Graph.ensureEndpoint (g : Graph) (x : String) : Graph :=
  if g.hasNode x then g else { g with nodes := g.nodes ++ [(x, .auto)] }

/-- Insert an edge into the edge list, or overwrite the `relation` of
the existing edge on the same ordered pair. -/
def upsertEdgeList (s t rel : String) (l : List Edge) : List Edge :=
  if l.any (fun e => e.1 = (s, t)) then
    l.map (fun e => if e.1 = (s, t) then ((s, t), rel) else e)
  else
    l ++ [((s, t), rel)]

/-- `graph.add_edge`: auto-create missing endpoints, then insert the
edge or overwrite its `relation`. -/
def Graph.addEdge (g : Graph) (s t rel : String) : Graph :=
  let g := (g.ensureEndpoint s).ensureEndpoint t
  { g with edges := upsertEdgeList s t rel g.edges }

/-- The `self.stats` counters (sets modelled as deduplicated lists). -/
structure Stats where
  total_classes : Nat := 0
  total_interfaces : Nat := 0
  total_enums : Nat := 0
  total_methods : Nat := 0
  total_packages : List String := []
  total_imports : Nat := 0
  total_dependencies : List String := []
  total_annotations : List String := []
  total_api_endpoints : Nat := 0
  total_logging_statements : Nat := 0
  files_with_errors : Nat := 0
  total_comments : Nat := 0
  total_configs : Nat := 0
  total_integrations : Nat := 0
  total_localizations : Nat := 0
  total_build_scripts : Nat := 0
  total_version_constraints : Nat := 0
  deriving Repr, DecidableEq

/-- Python `set.add`. -/
def setAdd (l : List String) (x : String) : List String :=
  if l.contains x then l else l ++ [x]

/-- The engine state: the shared graph plus the statistics. -/
structure GState where
  graph : Graph
  stats : Stats
  deriving Repr, DecidableEq

/-- The empty engine state. -/
def GState.init : GState := ⟨⟨[], []⟩, {}⟩

/-- Python `str.lower()` (ASCII). -/
def pyLower (s : String) : String := String.mk (s.data.map Char.toLower)

/-- Models CPython's `hash(str)`: an unspecified but run-deterministic
integer.  No claim depends on its values, only on its determinism; any
fixed function is a faithful model, and we use a simple polynomial
fold. -/
def pyHash (s : String) : Nat :=
  s.data.foldl (fun h c => (h * 31 + c.toNat) % (2 ^ 61)) 7

/-- The normalized class type of `_add_class_node`:
`class_type.strip().lower()` with `'elementtype.class'` mapped to
`'class'` (and only that one mapped). -/
def normClassType (ctype : String) : String :=
  let ct := pyLower (pyStrip ctype)
  if ct = "elementtype.class" then "class" else ct

/-- The node identifier built in `_add_class_node`. -/
def classNodeId (class_type name : String) : String :=
  pyCapitalize class_type ++ ": " ++ name

/-- The node identifier built in `_add_method_node`. -/
def methodNodeId (name : String) : String := "Method: " ++ name

/-- The node identifier a file gets in `_process_java_file`. -/
def fileNodeId (relative_path : String) : String := "File: " ++ relative_path

/-- One graph-assembly operation.  `_process_file_contents` interleaves
extraction with mutation, but extraction never reads the graph, so the
run is equivalently the extracted operation list folded over the state;
each constructor corresponds to one `_add_*` call. -/
inductive GOp where
  | addPackage (file_node pkg : String)
  | addImport (file_node imp : String)
  | addClass (file_node name ctype : String)
  | addAnnot (file_node a : String)
  | addMethod (class_name : String) (mi : MethodInfo)
  | addComment (file_node : String) (c : CommentInfo)
  | addLog (file_node : String) (l : LogInfo)
  | addIntegration (file_node : String) (i : Integration)
  | addLocalization (file_node : String) (l : LocalizationUse)
  deriving Repr, DecidableEq

/-- The shared shape of every `_add_*_node` method: insert the node and
update the statistics only when the identifier is new
(`if not self.graph.has_node(...)`). -/
def ensureNode (st : GState) (id : String) (d : NodeData) (bump : Stats → Stats) : GState :=
  if st.graph.hasNode id then st
  else { graph := st.graph.addNodeRaw id d, stats := bump st.stats }

/-- `self.graph.add_edge` on the engine state. -/
def GState.addE (st : GState) (s t rel : String) : GState :=
  { st with graph := st.graph.addEdge s t rel }

/-- The node identifier built in `_add_comment_node`. -/
def commentNodeId (c : CommentInfo) : String :=
  "Comment: " ++ toString c.line_number ++ "_" ++ toString (pyHash c.content)

/-- The node identifier built in `_add_log_statement_node`. -/
def logNodeId (l : LogInfo) : String := "Log: " ++ toString (pyHash l.message)

/-- The integration name as the f-string renders it (`None` for a
missing service name). -/
def integName (i : Integration) : String :=
  match i.name with | some s => s | none => "None"

/-- The node identifier built in `_add_localization_usage_node`. -/
def i18nNodeId (l : LocalizationUse) : String :=
  "i18n: " ++ pySplitextRoot (pyBasename l.path)

/-- Apply one operation: each branch mirrors the corresponding
`_add_*_node` method of `JavaCodeKnowledgeGraph`. -/
def applyOp (st : GState) (op : GOp) : GState :=
  match op with
  | .addPackage file_node p =>
    -- _add_package_node: note the edge runs Package -> File
    (ensureNode st ("Package: " ++ p) (.pkg p)
      (fun s => { s with total_packages := setAdd s.total_packages p })).addE
      ("Package: " ++ p) file_node "CONTAINS_FILE"
  | .addImport file_node im =>
    -- _add_import_node
    (ensureNode st ("Import: " ++ im) (.imp im)
      (fun s => { s with total_imports := s.total_imports + 1 })).addE
      file_node ("Import: " ++ im) "IMPORTS"
  | .addClass file_node name ctype =>
    -- _add_class_node: counters only for the keys of the `class_types`
    -- dict; any other normalized type is only logged as a warning
    let class_type := normClassType ctype
    (ensureNode st (classNodeId class_type name) (.clsN class_type name)
      (fun s =>
        if class_type = "class" then { s with total_classes := s.total_classes + 1 }
        else if class_type = "interface" then
          { s with total_interfaces := s.total_interfaces + 1 }
        else if class_type = "enum" then { s with total_enums := s.total_enums + 1 }
        else s)).addE file_node (classNodeId class_type name) "DEFINES"
  | .addMethod class_name mi =>
    -- _add_method_node: the HAS_METHOD edge is added only when the
    -- "Class: <name>" node already exists
    let st := ensureNode st (methodNodeId mi.name)
      (.mthd mi.name mi.return_type mi.parameters mi.annotations mi.modifiers
        mi.is_constructor)
      (fun s => { s with total_methods := s.total_methods + 1 })
    if st.graph.hasNode ("Class: " ++ class_name) then
      st.addE ("Class: " ++ class_name) (methodNodeId mi.name) "HAS_METHOD"
    else st
  | .addAnnot file_node a =>
    -- _add_annotation_node (the set update sits inside the guard)
    (ensureNode st ("Annotation: " ++ a) (.ann a)
      (fun s => { s with total_annotations := setAdd s.total_annotations a })).addE
      file_node ("Annotation: " ++ a) "ANNOTATED_WITH"
  | .addComment file_node c =>
    -- _add_comment_node
    (ensureNode st (commentNodeId c)
      (.cmt c.type.value c.content c.line_number c.associated_element c.tags)
      (fun s => { s with total_comments := s.total_comments + 1 })).addE
      file_node (commentNodeId c) "HAS_COMMENT"
  | .addLog file_node l =>
    -- _add_log_statement_node
    (ensureNode st (logNodeId l) (.logS l.level l.message)
      (fun s => { s with total_logging_statements := s.total_logging_statements + 1 })).addE
      file_node (logNodeId l) "USES"
  | .addIntegration file_node i =>
    -- _add_integration_node; `integration.get('url', '')` is always ''
    -- because the url sits inside the nested `details` dict
    (ensureNode st ("Integration: " ++ integName i) (.integ i.name "")
      (fun s => { s with total_integrations := s.total_integrations + 1 })).addE
      file_node ("Integration: " ++ integName i) "INTEGRATES_WITH"
  | .addLocalization file_node l =>
    -- _add_localization_usage_node
    (ensureNode st (i18nNodeId l) (.i18n l.path l.locale)
      (fun s => { s with total_localizations := s.total_localizations + 1 })).addE
      file_node (i18nNodeId l) "USES"

/-- The operation list `_process_file_contents` performs before the
version-constraint phase, in program order: package, imports, then per
class the class node, its annotations, and per method the method node
and its annotations, then comments, logging statements, integrations. -/
def fileOps (file_node content : String) : List GOp :=
  (match extract_package content with
   | some p => [.addPackage file_node p]
   | none => []) ++
  (extract_imports content).map (.addImport file_node ·) ++
  ((extract_classes content).map (fun ci =>
    GOp.addClass file_node ci.name (pyCapitalize ci.type.pyStr) ::
    ci.annotations.map (.addAnnot file_node ·) ++
    (ci.methods.map (fun m =>
      GOp.addMethod ci.name m :: m.annotations.map (.addAnnot file_node ·))).flatten)).flatten ++
  (extract_comments content).map (.addComment file_node ·) ++
  (extract_logs content).map (.addLog file_node ·) ++
  (extract_integrations content).map (.addIntegration file_node ·)

/-- The localization operations, performed after the version phase. -/
def locOps (file_node content : String) : List GOp :=
  (extract_localizations content).map (.addLocalization file_node ·)

/-- `_process_file_contents`.  When `extract_version_constraints` finds
any match, `_add_version_info` evaluates `version_data.get(...)` on a
`VersionConstraint` dataclass, which raises `AttributeError` before any
version node is added; `_process_file_contents` re-raises it, so the
result is `.error` with the state mutated up to the integrations phase
and the localization phase never runs.  Otherwise the localization phase
runs and the call returns normally. -/
def processFileContents (st : GState) (file_node content : String) :
    Except GState GState :=
  let st1 := (fileOps file_node content).foldl applyOp st
  if extract_version_constraints content = [] then
    .ok ((locOps file_node content).foldl applyOp st1)
  else
    .error st1

/-- Driver state: the engine state plus `analyzed_files` and
`files_processed`. -/
structure DState where
  gs : GState
  analyzed_files : List String
  files_processed : Nat
  deriving Repr, DecidableEq

/-- The empty driver state. -/
def DState.init : DState := ⟨GState.init, [], 0⟩

/-- One Java source file presented to `_process_java_file`: its path
(relative to the analyzed directory) and the result of reading it
(`none` models an I/O or decode failure, which raises before any
mutation). -/
structure JavaFile where
  path : String
  read : Option String
  deriving Repr, DecidableEq

/-- `_process_java_file`: skip already-analyzed paths; count the file;
on a read failure, or on an exception escaping `_process_file_contents`,
catch it and increment `files_with_errors`, keeping all mutations made
before the fault. -/
def processJavaFile (st : DState) (f : JavaFile) : DState :=
  if st.analyzed_files.contains f.path then st
  else
    let st := { st with files_processed := st.files_processed + 1 }
    match f.read with
    | none =>
      { st with gs := { st.gs with stats := { st.gs.stats with
          files_with_errors := st.gs.stats.files_with_errors + 1 } } }
    | some content =>
      let file_node := fileNodeId f.path
      let st := { st with
        analyzed_files := st.analyzed_files ++ [f.path],
        gs := { st.gs with graph := st.gs.graph.addNodeRaw file_node (.file f.path) } }
      match processFileContents st.gs file_node content with
      | .ok gs' => { st with gs := gs' }
      | .error gs' =>
        { st with gs := { gs' with stats := { gs'.stats with
            files_with_errors := gs'.stats.files_with_errors + 1 } } }

/-- The `.java` branch of the per-file loop of `_process_codebase`. -/
def processJavaFiles (st : DState) (files : List JavaFile) : DState :=
  files.foldl processJavaFile st

/-- `_add_dependency_node`.  `dep_info['group_id']` etc. come from the
`Dependency` record; `None` values render as `"None"` in the f-string. -/
def add_dependency_node (st : GState) (build_node : String) (dep : Dependency) : GState :=
  let optStr := fun (o : Option String) => match o with | some s => s | none => "None"
  let dep_id := optStr dep.group_id ++ ":" ++ optStr dep.artifact_id
  let dep_node := "Dependency: " ++ dep_id
  let st :=
    if st.graph.hasNode dep_node then st
    else { st with
      graph := st.graph.addNodeRaw dep_node
        (.depN (optStr dep.group_id) (optStr dep.artifact_id) dep.version dep.scope),
      stats := { st.stats with
        total_dependencies := setAdd st.stats.total_dependencies dep_id } }
  { st with graph := st.graph.addEdge build_node dep_node "DEPENDS_ON" }

/-- Attribute bag of a node, if present. -/
def Graph.nodeData (g : Graph) (id : String) : Option NodeData :=
  (g.nodes.find? (fun p => p.1 = id)).map (·.2)

/-- The full operation list of one `_process_file_contents` call: the
localization phase runs only when the version phase (which otherwise
raises) is empty. -/
def allOps (file_node content : String) : List GOp :=
  fileOps file_node content ++
    (if extract_version_constraints content = [] then locOps file_node content else [])

/-- The engine state after `_process_file_contents` returns or raises:
all mutations up to the fault are kept either way (the caller catches
the exception). -/
def pfcState (st : GState) (file_node content : String) : GState :=
  match processFileContents st file_node content with
  | .ok s => s
  | .error s => s

/-- The edge (with its label) an operation writes when its write fires
(`addMethod`'s write is conditional on the class node's existence; all
others always fire). -/
def opWrites : GOp → List ((String × String) × String)
  | .addPackage fn p => [(("Package: " ++ p, fn), "CONTAINS_FILE")]
  | .addImport fn im => [((fn, "Import: " ++ im), "IMPORTS")]
  | .addClass fn name ctype => [((fn, classNodeId (normClassType ctype) name), "DEFINES")]
  | .addAnnot fn a => [((fn, "Annotation: " ++ a), "ANNOTATED_WITH")]
  | .addMethod cn mi => [(("Class: " ++ cn, methodNodeId mi.name), "HAS_METHOD")]
  | .addComment fn c => [((fn, commentNodeId c), "HAS_COMMENT")]
  | .addLog fn l => [((fn, logNodeId l), "USES")]
  | .addIntegration fn i => [((fn, "Integration: " ++ integName i), "INTEGRATES_WITH")]
  | .addLocalization fn l => [((fn, i18nNodeId l), "USES")]

/-- The node identifiers an operation guarantees to exist afterwards
(its own node, and the edge endpoints it writes unconditionally). -/
def opEnsures : GOp → List String
  | .addPackage fn p => ["Package: " ++ p, fn]
  | .addImport fn im => ["Import: " ++ im, fn]
  | .addClass fn name ctype => [classNodeId (normClassType ctype) name, fn]
  | .addAnnot fn a => ["Annotation: " ++ a, fn]
  | .addMethod _ mi => [methodNodeId mi.name]
  | .addComment fn c => [commentNodeId c, fn]
  | .addLog fn l => [logNodeId l, fn]
  | .addIntegration fn i => ["Integration: " ++ integName i, fn]
  | .addLocalization fn l => [i18nNodeId l, fn]

/-- Does the operation come from processing the given file node?
(`addMethod` carries no file node.) -/
def opFromFile (fn : String) : GOp → Bool
  | .addPackage fn' _ | .addImport fn' _ | .addClass fn' _ _ | .addAnnot fn' _
  | .addComment fn' _ | .addLog fn' _ | .addIntegration fn' _
  | .addLocalization fn' _ => fn' = fn
  | .addMethod _ _ => true

/-! ## Concrete inputs used by the claim theorems -/

/-- The `dependency` element of `c7tree` (below), standalone. -/
def c7elem : XmlElem :=
  .node "dependency" none
    [.node "groupId" (some "g") [], .node "artifactId" (some "a") []]

/-- The record `c7elem` extracts to. -/
def c7rec : Dependency :=
  { group_id := some "g", artifact_id := some "a", version := none,
    scope := some "compile" }

/-- An interface with one method, for the interface-method-edge claim. -/
def c10content : String := "interface I \x7b void m() \x7b \x7d \x7d"

/-- The one class record extracted from `c10content`. -/
def c10ci : ClassInfo :=
  (extract_classes c10content).getD 0 ⟨"", .CLASS, [], [], none, [], [], []⟩

/-- The one method record of that interface. -/
def c10mi : MethodInfo := c10ci.methods.getD 0 ⟨"", "", [], [], [], false⟩

/-- A class with a constructor and a plain method, used as the
constructor-classification witness input. -/
def c6content : String := "class A \x7b A() \x7b\x7d void m() \x7b\x7d \x7d"

/-- The end-to-end input text of the specification's testable property. -/
def c2content : String :=
  "package com.acme; public class Foo \x7b public Foo() \x7b\x7d public String bar(String x) \x7b return x; \x7d \x7d"

/-- The end-to-end run over that single file. -/
def c2run : DState := processJavaFiles DState.init [⟨"Foo.java", some c2content⟩]

/-- Two files declaring unrelated classes `Outer.Inner` and `Other`,
each with a method `m`, plus a second pair of files both declaring
`Outer.Inner`. -/
def c1run : DState := processJavaFiles DState.init
  [⟨"A.java", some "class Outer \x7b class Inner \x7b void m() \x7b \x7d \x7d \x7d"⟩,
   ⟨"B.java", some "class Other \x7b void m() \x7b \x7d \x7d"⟩]

/-- A file whose top-level declarations are an interface and an enum,
and one with a class, for the counter claims. -/
def c3run : DState := processJavaFiles DState.init
  [⟨"I.java", some "interface I \x7b \x7d"⟩,
   ⟨"E.java", some "enum E \x7b \x7d"⟩,
   ⟨"C.java", some "class C \x7b \x7d"⟩]

/-- A file with a package declaration, for the orphan-package claim. -/
def c4run : DState := processJavaFiles DState.init
  [⟨"A.java", some "package p; class A \x7b \x7d"⟩]

/-- A file whose interface `A`'s method `m` is followed by a class also
named `A`: the `HAS_METHOD` class lookup fails on the first pass and
succeeds on a re-run. -/
def c8content : String :=
  "interface A \x7b void m() \x7b \x7d \x7d\nclass A \x7b \x7d"

/-- A starting state holding just the file node, as `_process_java_file`
sets up before calling `_process_file_contents`. -/
def c8st0 : GState := ⟨⟨[("File: F.java", .file "F.java")], []⟩, {}⟩

/-- One run of the per-file pipeline over `c8content`. -/
def c8g1 : GState := pfcState c8st0 "File: F.java" c8content

/-- A second run of the same pipeline over the same text. -/
def c8g2 : GState := pfcState c8g1 "File: F.java" c8content

/-- A three-file run whose middle file contains `@since 1.0`, which
makes `_add_version_info` raise (`.get` on a dataclass) after the
earlier phases already mutated the graph. -/
def c9run : DState := processJavaFiles DState.init
  [⟨"A.java", some "package p; class A \x7b \x7d"⟩,
   ⟨"B.java", some "/** @since 1.0 */ class B \x7b \x7d"⟩,
   ⟨"C.java", some "class C \x7b \x7d"⟩]

/-- A parsed Maven descriptor whose single dependency has no `version`
and no `scope` element. -/
def c7tree : XmlElem :=
  .node "project" none
    [.node "dependencies" none
      [.node "dependency" none
        [.node "groupId" (some "g") [],
         .node "artifactId" (some "a") []]]]

/-! ## Lemmas about the graph primitives -/

theorem ensureEndpoint_edges (g : Graph) (x : String) :
    (g.ensureEndpoint x).edges = g.edges := by
  unfold Graph.ensureEndpoint; split <;> rfl

theorem addEdge_edges (g : Graph) (s t rel : String) :
    (g.addEdge s t rel).edges = upsertEdgeList s t rel g.edges := by
  show upsertEdgeList s t rel ((g.ensureEndpoint s).ensureEndpoint t).edges = _
  rw [ensureEndpoint_edges, ensureEndpoint_edges]

theorem addEdge_nodes (g : Graph) (s t rel : String) :
    (g.addEdge s t rel).nodes = ((g.ensureEndpoint s).ensureEndpoint t).nodes := rfl

theorem hasNode_ensureEndpoint_mono (g : Graph) (x y : String)
    (h : g.hasNode y = true) : (g.ensureEndpoint x).hasNode y = true := by
  unfold Graph.ensureEndpoint
  split
  · exact h
  · unfold Graph.hasNode at h ⊢
    simp only [List.any_eq_true] at h ⊢
    obtain ⟨p, hp, he⟩ := h
    exact ⟨p, List.mem_append_left _ hp, he⟩

theorem ensureEndpoint_of_hasNode (g : Graph) (x : String)
    (h : g.hasNode x = true) : g.ensureEndpoint x = g := by
  unfold Graph.ensureEndpoint; simp [h]

theorem hasNode_addNodeRaw_self (g : Graph) (id : String) (d : NodeData) :
    (g.addNodeRaw id d).hasNode id = true := by
  unfold Graph.addNodeRaw
  split
  · rename_i h
    unfold Graph.hasNode at h ⊢
    simp only [List.any_eq_true, decide_eq_true_eq] at h ⊢
    obtain ⟨p, hp, he⟩ := h
    exact ⟨(id, d), List.mem_map.mpr ⟨p, hp, by simp [he]⟩, rfl⟩
  · unfold Graph.hasNode
    simp

theorem hasNode_addNodeRaw_mono (g : Graph) (id x : String) (d : NodeData)
    (h : g.hasNode x = true) : (g.addNodeRaw id d).hasNode x = true := by
  unfold Graph.addNodeRaw
  split
  · unfold Graph.hasNode at h ⊢
    simp only [List.any_eq_true, decide_eq_true_eq] at h ⊢
    obtain ⟨p, hp, he⟩ := h
    by_cases hpi : p.1 = id
    · exact ⟨(id, d), List.mem_map.mpr ⟨p, hp, by simp [hpi]⟩, by rw [← he, hpi]⟩
    · exact ⟨p, List.mem_map.mpr ⟨p, hp, by simp [hpi]⟩, he⟩
  · unfold Graph.hasNode at h ⊢
    simp only [List.any_eq_true] at h ⊢
    obtain ⟨p, hp, he⟩ := h
    exact ⟨p, List.mem_append_left _ hp, he⟩

theorem hasNode_addEdge_mono (g : Graph) (s t rel x : String)
    (h : g.hasNode x = true) : (g.addEdge s t rel).hasNode x = true := by
  have h1 := hasNode_ensureEndpoint_mono (g := g.ensureEndpoint s) (x := t) (y := x)
    (hasNode_ensureEndpoint_mono (g := g) (x := s) (y := x) h)
  unfold Graph.addEdge
  exact h1

theorem addEdge_nodes_of_hasNode (g : Graph) (s t rel : String)
    (hs : g.hasNode s = true) (ht : g.hasNode t = true) :
    (g.addEdge s t rel).nodes = g.nodes := by
  rw [addEdge_nodes, ensureEndpoint_of_hasNode _ _ hs, ensureEndpoint_of_hasNode _ _ ht]

/-! Edge-list level lemmas. -/

theorem mem_upsertEdgeList (s t rel : String) (l : List Edge) (e : Edge)
    (h : e ∈ upsertEdgeList s t rel l) : e ∈ l ∨ e = ((s, t), rel) := by
  unfold upsertEdgeList at h
  split at h
  · rw [List.mem_map] at h
    obtain ⟨e', he', heq⟩ := h
    by_cases hk : e'.1 = (s, t)
    · right; rw [← heq]; simp [hk]
    · left; rw [← heq]; simp only [hk, if_neg, ite_false]; exact he'
  · rw [List.mem_append] at h
    rcases h with h | h
    · exact Or.inl h
    · right; simpa using h

theorem self_mem_upsertEdgeList (s t rel : String) (l : List Edge) :
    ((s, t), rel) ∈ upsertEdgeList s t rel l := by
  unfold upsertEdgeList
  split
  · rename_i hany
    simp only [List.any_eq_true, decide_eq_true_eq] at hany
    obtain ⟨e, he, hk⟩ := hany
    exact List.mem_map.mpr ⟨e, he, by simp [hk]⟩
  · simp

theorem pair_mem_upsertEdgeList (s t rel : String) (l : List Edge) (p : String × String)
    (h : p ∈ l.map Prod.fst) : p ∈ (upsertEdgeList s t rel l).map Prod.fst := by
  unfold upsertEdgeList
  rw [List.mem_map] at h
  obtain ⟨e, he, heq⟩ := h
  split
  · by_cases hk : e.1 = (s, t)
    · exact List.mem_map.mpr ⟨((s, t), rel), List.mem_map.mpr ⟨e, he, by simp [hk]⟩,
        by rw [← heq, hk]⟩
    · exact List.mem_map.mpr ⟨e, List.mem_map.mpr ⟨e, he, by simp [hk]⟩, heq⟩
  · exact List.mem_map.mpr ⟨e, List.mem_append_left _ he, heq⟩

theorem mem_upsertEdgeList_of_ne (s t rel : String) (l : List Edge) (e : Edge)
    (he : e ∈ l) (hne : e.1 ≠ (s, t)) : e ∈ upsertEdgeList s t rel l := by
  unfold upsertEdgeList
  split
  · exact List.mem_map.mpr ⟨e, he, by simp [hne]⟩
  · exact List.mem_append_left _ he

theorem filter_source_map_overwrite (s t rel X : String) (hs : s ≠ X) (l : List Edge) :
    (l.map (fun e => if e.1 = (s, t) then ((s, t), rel) else e)).filter
        (fun e => e.1.1 = X) =
      l.filter (fun e => e.1.1 = X) := by
  induction l with
  | nil => rfl
  | cons e es ih =>
    simp only [List.map_cons, List.filter_cons]
    by_cases hk : e.1 = (s, t)
    · have h1 : e.1.1 = s := by rw [hk]
      have h2 : ¬(e.1.1 = X) := by rw [h1]; exact hs
      simp [hk, h2, hs, ih]
    · by_cases hx : e.1.1 = X <;> simp [hk, hx, ih]

theorem filter_source_upsertEdgeList (s t rel X : String) (l : List Edge) (hs : s ≠ X) :
    (upsertEdgeList s t rel l).filter (fun e => e.1.1 = X) =
      l.filter (fun e => e.1.1 = X) := by
  unfold upsertEdgeList
  split
  · exact filter_source_map_overwrite s t rel X hs l
  · rw [List.filter_append]
    simp [hs]

theorem filter_target_map_overwrite (s t rel X : String) (ht : t ≠ X) (l : List Edge) :
    (l.map (fun e => if e.1 = (s, t) then ((s, t), rel) else e)).filter
        (fun e => e.1.2 = X) =
      l.filter (fun e => e.1.2 = X) := by
  induction l with
  | nil => rfl
  | cons e es ih =>
    simp only [List.map_cons, List.filter_cons]
    by_cases hk : e.1 = (s, t)
    · have h1 : e.1.2 = t := by rw [hk]
      have h2 : ¬(e.1.2 = X) := by rw [h1]; exact ht
      simp [hk, h2, ht, ih]
    · by_cases hx : e.1.2 = X <;> simp [hk, hx, ih]

theorem filter_target_upsertEdgeList (s t rel X : String) (l : List Edge) (ht : t ≠ X) :
    (upsertEdgeList s t rel l).filter (fun e => e.1.2 = X) =
      l.filter (fun e => e.1.2 = X) := by
  unfold upsertEdgeList
  split
  · exact filter_target_map_overwrite s t rel X ht l
  · rw [List.filter_append]
    simp [ht]

theorem hasNode_ensureEndpoint_self (g : Graph) (x : String) :
    (g.ensureEndpoint x).hasNode x = true := by
  unfold Graph.ensureEndpoint
  split
  · assumption
  · unfold Graph.hasNode; simp

theorem hasNode_addEdge_src (g : Graph) (s t rel : String) :
    (g.addEdge s t rel).hasNode s = true := by
  show ((g.ensureEndpoint s).ensureEndpoint t).hasNode s = true
  exact hasNode_ensureEndpoint_mono _ _ _ (hasNode_ensureEndpoint_self _ _)

theorem hasNode_addEdge_tgt (g : Graph) (s t rel : String) :
    (g.addEdge s t rel).hasNode t = true := by
  show ((g.ensureEndpoint s).ensureEndpoint t).hasNode t = true
  exact hasNode_ensureEndpoint_self _ _

theorem addNodeRaw_edges (g : Graph) (id : String) (d : NodeData) :
    (g.addNodeRaw id d).edges = g.edges := by
  unfold Graph.addNodeRaw; split <;> rfl

/-! ## Lemmas about `ensureNode`, `GState.addE` and `applyOp` -/

theorem ensureNode_edges (st : GState) (id : String) (d : NodeData) (b : Stats → Stats) :
    (ensureNode st id d b).graph.edges = st.graph.edges := by
  unfold ensureNode; split
  · rfl
  · exact addNodeRaw_edges _ _ _

theorem ensureNode_hasNode_self (st : GState) (id : String) (d : NodeData)
    (b : Stats → Stats) : (ensureNode st id d b).graph.hasNode id = true := by
  unfold ensureNode; split
  · assumption
  · exact hasNode_addNodeRaw_self _ _ _

theorem ensureNode_hasNode_mono (st : GState) (id x : String) (d : NodeData)
    (b : Stats → Stats) (h : st.graph.hasNode x = true) :
    (ensureNode st id d b).graph.hasNode x = true := by
  unfold ensureNode; split
  · exact h
  · exact hasNode_addNodeRaw_mono _ _ _ _ h

theorem ensureNode_of_hasNode (st : GState) (id : String) (d : NodeData)
    (b : Stats → Stats) (h : st.graph.hasNode id = true) :
    ensureNode st id d b = st := by
  unfold ensureNode; simp [h]

theorem addE_edges (st : GState) (s t rel : String) :
    (st.addE s t rel).graph.edges = upsertEdgeList s t rel st.graph.edges := by
  show (st.graph.addEdge s t rel).edges = _
  exact addEdge_edges _ _ _ _

theorem addE_hasNode_mono (st : GState) (s t rel x : String)
    (h : st.graph.hasNode x = true) : (st.addE s t rel).graph.hasNode x = true :=
  hasNode_addEdge_mono _ _ _ _ _ h

theorem addE_nodes_of_hasNode (st : GState) (s t rel : String)
    (hs : st.graph.hasNode s = true) (ht : st.graph.hasNode t = true) :
    (st.addE s t rel).graph.nodes = st.graph.nodes :=
  addEdge_nodes_of_hasNode _ _ _ _ hs ht

/-- Monotonicity: an operation never removes a node. -/
theorem applyOp_hasNode_mono (st : GState) (op : GOp) (x : String)
    (h : st.graph.hasNode x = true) : (applyOp st op).graph.hasNode x = true := by
  cases op <;>
    simp only [applyOp] <;>
    first
      | exact addE_hasNode_mono _ _ _ _ _ (ensureNode_hasNode_mono _ _ _ _ _ h)
      | · split
          · exact addE_hasNode_mono _ _ _ _ _ (ensureNode_hasNode_mono _ _ _ _ _ h)
          · exact ensureNode_hasNode_mono _ _ _ _ _ h

/-- Every identifier in `opEnsures` exists after the operation. -/
theorem applyOp_ensures (st : GState) (op : GOp) (x : String)
    (h : x ∈ opEnsures op) : (applyOp st op).graph.hasNode x = true := by
  cases op with
  | addMethod cn mi =>
    simp only [opEnsures, List.mem_singleton] at h
    subst h
    simp only [applyOp]
    split
    · exact addE_hasNode_mono _ _ _ _ _ (ensureNode_hasNode_self _ _ _ _)
    · exact ensureNode_hasNode_self _ _ _ _
  | addPackage fn p =>
    simp only [opEnsures, List.mem_cons, List.mem_singleton] at h
    rcases h with rfl | rfl | h
    · exact addE_hasNode_mono _ _ _ _ _ (ensureNode_hasNode_self _ _ _ _)
    · exact hasNode_addEdge_tgt _ _ _ _
    · cases h
  | addImport fn im =>
    simp only [opEnsures, List.mem_cons, List.mem_singleton] at h
    rcases h with rfl | rfl | h
    · exact addE_hasNode_mono _ _ _ _ _ (ensureNode_hasNode_self _ _ _ _)
    · exact hasNode_addEdge_src _ _ _ _
    · cases h
  | addClass fn name ctype =>
    simp only [opEnsures, List.mem_cons, List.mem_singleton] at h
    rcases h with rfl | rfl | h
    · exact addE_hasNode_mono _ _ _ _ _ (ensureNode_hasNode_self _ _ _ _)
    · exact hasNode_addEdge_src _ _ _ _
    · cases h
  | addAnnot fn a =>
    simp only [opEnsures, List.mem_cons, List.mem_singleton] at h
    rcases h with rfl | rfl | h
    · exact addE_hasNode_mono _ _ _ _ _ (ensureNode_hasNode_self _ _ _ _)
    · exact hasNode_addEdge_src _ _ _ _
    · cases h
  | addComment fn c =>
    simp only [opEnsures, List.mem_cons, List.mem_singleton] at h
    rcases h with rfl | rfl | h
    · exact addE_hasNode_mono _ _ _ _ _ (ensureNode_hasNode_self _ _ _ _)
    · exact hasNode_addEdge_src _ _ _ _
    · cases h
  | addLog fn l =>
    simp only [opEnsures, List.mem_cons, List.mem_singleton] at h
    rcases h with rfl | rfl | h
    · exact addE_hasNode_mono _ _ _ _ _ (ensureNode_hasNode_self _ _ _ _)
    · exact hasNode_addEdge_src _ _ _ _
    · cases h
  | addIntegration fn i =>
    simp only [opEnsures, List.mem_cons, List.mem_singleton] at h
    rcases h with rfl | rfl | h
    · exact addE_hasNode_mono _ _ _ _ _ (ensureNode_hasNode_self _ _ _ _)
    · exact hasNode_addEdge_src _ _ _ _
    · cases h
  | addLocalization fn l =>
    simp only [opEnsures, List.mem_cons, List.mem_singleton] at h
    rcases h with rfl | rfl | h
    · exact addE_hasNode_mono _ _ _ _ _ (ensureNode_hasNode_self _ _ _ _)
    · exact hasNode_addEdge_src _ _ _ _
    · cases h

/-- When every identifier the operation would create already exists, the
node list is untouched (the edge phase can still change labels). -/
theorem applyOp_nodes_stable (st : GState) (op : GOp)
    (h : ∀ x ∈ opEnsures op, st.graph.hasNode x = true) :
    (applyOp st op).graph.nodes = st.graph.nodes := by
  cases op with
  | addMethod cn mi =>
    have h1 : st.graph.hasNode (methodNodeId mi.name) = true := by
      apply h; simp [opEnsures]
    simp only [applyOp]
    rw [ensureNode_of_hasNode _ _ _ _ h1]
    split
    · exact addE_nodes_of_hasNode _ _ _ _ (by assumption) h1
    · rfl
  | addPackage fn p =>
    have h1 : st.graph.hasNode ("Package: " ++ p) = true := by apply h; simp [opEnsures]
    have h2 : st.graph.hasNode fn = true := by apply h; simp [opEnsures]
    simp only [applyOp]
    rw [ensureNode_of_hasNode _ _ _ _ h1]
    exact addE_nodes_of_hasNode _ _ _ _ h1 h2
  | addImport fn im =>
    have h1 : st.graph.hasNode ("Import: " ++ im) = true := by apply h; simp [opEnsures]
    have h2 : st.graph.hasNode fn = true := by apply h; simp [opEnsures]
    simp only [applyOp]
    rw [ensureNode_of_hasNode _ _ _ _ h1]
    exact addE_nodes_of_hasNode _ _ _ _ h2 h1
  | addClass fn name ctype =>
    have h1 : st.graph.hasNode (classNodeId (normClassType ctype) name) = true := by
      apply h; simp [opEnsures]
    have h2 : st.graph.hasNode fn = true := by apply h; simp [opEnsures]
    simp only [applyOp]
    rw [ensureNode_of_hasNode _ _ _ _ h1]
    exact addE_nodes_of_hasNode _ _ _ _ h2 h1
  | addAnnot fn a =>
    have h1 : st.graph.hasNode ("Annotation: " ++ a) = true := by apply h; simp [opEnsures]
    have h2 : st.graph.hasNode fn = true := by apply h; simp [opEnsures]
    simp only [applyOp]
    rw [ensureNode_of_hasNode _ _ _ _ h1]
    exact addE_nodes_of_hasNode _ _ _ _ h2 h1
  | addComment fn c =>
    have h1 : st.graph.hasNode (commentNodeId c) = true := by apply h; simp [opEnsures]
    have h2 : st.graph.hasNode fn = true := by apply h; simp [opEnsures]
    simp only [applyOp]
    rw [ensureNode_of_hasNode _ _ _ _ h1]
    exact addE_nodes_of_hasNode _ _ _ _ h2 h1
  | addLog fn l =>
    have h1 : st.graph.hasNode (logNodeId l) = true := by apply h; simp [opEnsures]
    have h2 : st.graph.hasNode fn = true := by apply h; simp [opEnsures]
    simp only [applyOp]
    rw [ensureNode_of_hasNode _ _ _ _ h1]
    exact addE_nodes_of_hasNode _ _ _ _ h2 h1
  | addIntegration fn i =>
    have h1 : st.graph.hasNode ("Integration: " ++ integName i) = true := by
      apply h; simp [opEnsures]
    have h2 : st.graph.hasNode fn = true := by apply h; simp [opEnsures]
    simp only [applyOp]
    rw [ensureNode_of_hasNode _ _ _ _ h1]
    exact addE_nodes_of_hasNode _ _ _ _ h2 h1
  | addLocalization fn l =>
    have h1 : st.graph.hasNode (i18nNodeId l) = true := by apply h; simp [opEnsures]
    have h2 : st.graph.hasNode fn = true := by apply h; simp [opEnsures]
    simp only [applyOp]
    rw [ensureNode_of_hasNode _ _ _ _ h1]
    exact addE_nodes_of_hasNode _ _ _ _ h2 h1

/-- Every edge after an operation was already present or is the
operation's write. -/
theorem applyOp_edges_mem (st : GState) (op : GOp) (e : Edge)
    (h : e ∈ (applyOp st op).graph.edges) : e ∈ st.graph.edges ∨ e ∈ opWrites op := by
  cases op with
  | addMethod cn mi =>
    simp only [applyOp] at h
    split at h
    · rw [addE_edges, ensureNode_edges] at h
      rcases mem_upsertEdgeList _ _ _ _ _ h with h | h
      · exact Or.inl h
      · right; simp [opWrites, h, methodNodeId]
    · rw [ensureNode_edges] at h
      exact Or.inl h
  | addPackage fn p =>
    simp only [applyOp] at h
    rw [addE_edges, ensureNode_edges] at h
    rcases mem_upsertEdgeList _ _ _ _ _ h with h | h
    · exact Or.inl h
    · right; simp [opWrites, h]
  | addImport fn im =>
    simp only [applyOp] at h
    rw [addE_edges, ensureNode_edges] at h
    rcases mem_upsertEdgeList _ _ _ _ _ h with h | h
    · exact Or.inl h
    · right; simp [opWrites, h]
  | addClass fn name ctype =>
    simp only [applyOp] at h
    rw [addE_edges, ensureNode_edges] at h
    rcases mem_upsertEdgeList _ _ _ _ _ h with h | h
    · exact Or.inl h
    · right; simp [opWrites, h]
  | addAnnot fn a =>
    simp only [applyOp] at h
    rw [addE_edges, ensureNode_edges] at h
    rcases mem_upsertEdgeList _ _ _ _ _ h with h | h
    · exact Or.inl h
    · right; simp [opWrites, h]
  | addComment fn c =>
    simp only [applyOp] at h
    rw [addE_edges, ensureNode_edges] at h
    rcases mem_upsertEdgeList _ _ _ _ _ h with h | h
    · exact Or.inl h
    · right; simp [opWrites, h]
  | addLog fn l =>
    simp only [applyOp] at h
    rw [addE_edges, ensureNode_edges] at h
    rcases mem_upsertEdgeList _ _ _ _ _ h with h | h
    · exact Or.inl h
    · right; simp [opWrites, h]
  | addIntegration fn i =>
    simp only [applyOp] at h
    rw [addE_edges, ensureNode_edges] at h
    rcases mem_upsertEdgeList _ _ _ _ _ h with h | h
    · exact Or.inl h
    · right; simp [opWrites, h]
  | addLocalization fn l =>
    simp only [applyOp] at h
    rw [addE_edges, ensureNode_edges] at h
    rcases mem_upsertEdgeList _ _ _ _ _ h with h | h
    · exact Or.inl h
    · right; simp [opWrites, h]

/-- An operation never disconnects an ordered pair. -/
theorem applyOp_pair_mono (st : GState) (op : GOp) (p : String × String)
    (h : p ∈ st.graph.edges.map Prod.fst) :
    p ∈ (applyOp st op).graph.edges.map Prod.fst := by
  cases op with
  | addMethod cn mi =>
    simp only [applyOp]
    split
    · rw [addE_edges, ensureNode_edges]
      exact pair_mem_upsertEdgeList _ _ _ _ _ h
    · rw [ensureNode_edges]; exact h
  | addPackage fn p' =>
    simp only [applyOp]; rw [addE_edges, ensureNode_edges]
    exact pair_mem_upsertEdgeList _ _ _ _ _ h
  | addImport fn im =>
    simp only [applyOp]; rw [addE_edges, ensureNode_edges]
    exact pair_mem_upsertEdgeList _ _ _ _ _ h
  | addClass fn name ctype =>
    simp only [applyOp]; rw [addE_edges, ensureNode_edges]
    exact pair_mem_upsertEdgeList _ _ _ _ _ h
  | addAnnot fn a =>
    simp only [applyOp]; rw [addE_edges, ensureNode_edges]
    exact pair_mem_upsertEdgeList _ _ _ _ _ h
  | addComment fn c =>
    simp only [applyOp]; rw [addE_edges, ensureNode_edges]
    exact pair_mem_upsertEdgeList _ _ _ _ _ h
  | addLog fn l =>
    simp only [applyOp]; rw [addE_edges, ensureNode_edges]
    exact pair_mem_upsertEdgeList _ _ _ _ _ h
  | addIntegration fn i =>
    simp only [applyOp]; rw [addE_edges, ensureNode_edges]
    exact pair_mem_upsertEdgeList _ _ _ _ _ h
  | addLocalization fn l =>
    simp only [applyOp]; rw [addE_edges, ensureNode_edges]
    exact pair_mem_upsertEdgeList _ _ _ _ _ h

/-- Edges whose source is untouched by the operation's writes are kept
verbatim. -/
theorem applyOp_filter_source (st : GState) (op : GOp) (X : String)
    (h : ∀ w ∈ opWrites op, w.1.1 ≠ X) :
    (applyOp st op).graph.edges.filter (fun e => e.1.1 = X) =
      st.graph.edges.filter (fun e => e.1.1 = X) := by
  cases op with
  | addMethod cn mi =>
    have hs : ("Class: " ++ cn) ≠ X := by
      have := h (("Class: " ++ cn, methodNodeId mi.name), "HAS_METHOD")
        (by simp [opWrites, methodNodeId])
      exact this
    simp only [applyOp]
    split
    · rw [addE_edges, ensureNode_edges]
      exact filter_source_upsertEdgeList _ _ _ _ _ hs
    · rw [ensureNode_edges]
  | addPackage fn p =>
    have hs : ("Package: " ++ p) ≠ X :=
      h (("Package: " ++ p, fn), "CONTAINS_FILE") (by simp [opWrites])
    simp only [applyOp]; rw [addE_edges, ensureNode_edges]
    exact filter_source_upsertEdgeList _ _ _ _ _ hs
  | addImport fn im =>
    have hs : fn ≠ X := h ((fn, "Import: " ++ im), "IMPORTS") (by simp [opWrites])
    simp only [applyOp]; rw [addE_edges, ensureNode_edges]
    exact filter_source_upsertEdgeList _ _ _ _ _ hs
  | addClass fn name ctype =>
    have hs : fn ≠ X :=
      h ((fn, classNodeId (normClassType ctype) name), "DEFINES") (by simp [opWrites])
    simp only [applyOp]; rw [addE_edges, ensureNode_edges]
    exact filter_source_upsertEdgeList _ _ _ _ _ hs
  | addAnnot fn a =>
    have hs : fn ≠ X := h ((fn, "Annotation: " ++ a), "ANNOTATED_WITH") (by simp [opWrites])
    simp only [applyOp]; rw [addE_edges, ensureNode_edges]
    exact filter_source_upsertEdgeList _ _ _ _ _ hs
  | addComment fn c =>
    have hs : fn ≠ X := h ((fn, commentNodeId c), "HAS_COMMENT") (by simp [opWrites])
    simp only [applyOp]; rw [addE_edges, ensureNode_edges]
    exact filter_source_upsertEdgeList _ _ _ _ _ hs
  | addLog fn l =>
    have hs : fn ≠ X := h ((fn, logNodeId l), "USES") (by simp [opWrites])
    simp only [applyOp]; rw [addE_edges, ensureNode_edges]
    exact filter_source_upsertEdgeList _ _ _ _ _ hs
  | addIntegration fn i =>
    have hs : fn ≠ X :=
      h ((fn, "Integration: " ++ integName i), "INTEGRATES_WITH") (by simp [opWrites])
    simp only [applyOp]; rw [addE_edges, ensureNode_edges]
    exact filter_source_upsertEdgeList _ _ _ _ _ hs
  | addLocalization fn l =>
    have hs : fn ≠ X := h ((fn, i18nNodeId l), "USES") (by simp [opWrites])
    simp only [applyOp]; rw [addE_edges, ensureNode_edges]
    exact filter_source_upsertEdgeList _ _ _ _ _ hs

/-! ## Lemmas about folded operation lists -/

theorem foldl_hasNode_mono (ops : List GOp) (st : GState) (x : String)
    (h : st.graph.hasNode x = true) :
    (ops.foldl applyOp st).graph.hasNode x = true := by
  induction ops generalizing st with
  | nil => exact h
  | cons op ops ih => exact ih _ (applyOp_hasNode_mono _ _ _ h)

theorem foldl_ensures (ops : List GOp) (st : GState) (op : GOp) (x : String)
    (hop : op ∈ ops) (hx : x ∈ opEnsures op) :
    (ops.foldl applyOp st).graph.hasNode x = true := by
  induction ops generalizing st with
  | nil => cases hop
  | cons o os ih =>
    simp only [List.foldl_cons]
    rcases List.mem_cons.mp hop with rfl | hop'
    · exact foldl_hasNode_mono os (applyOp st op) x (applyOp_ensures st op x hx)
    · exact ih (applyOp st o) hop'

theorem foldl_nodes_stable (ops : List GOp) (st : GState)
    (h : ∀ op ∈ ops, ∀ x ∈ opEnsures op, st.graph.hasNode x = true) :
    (ops.foldl applyOp st).graph.nodes = st.graph.nodes := by
  induction ops generalizing st with
  | nil => rfl
  | cons op os ih =>
    have h0 : (applyOp st op).graph.nodes = st.graph.nodes :=
      applyOp_nodes_stable _ _ (h op (List.mem_cons_self _ _))
    have hnext : ∀ o ∈ os, ∀ x ∈ opEnsures o, (applyOp st op).graph.hasNode x = true := by
      intro o ho x hx
      have := h o (List.mem_cons_of_mem _ ho) x hx
      unfold Graph.hasNode at this ⊢
      rw [h0]
      exact this
    simp only [List.foldl_cons]
    rw [ih _ hnext, h0]

theorem foldl_edges_mem (ops : List GOp) (st : GState) (e : Edge)
    (h : e ∈ (ops.foldl applyOp st).graph.edges) :
    e ∈ st.graph.edges ∨ ∃ op ∈ ops, e ∈ opWrites op := by
  induction ops generalizing st with
  | nil => exact Or.inl h
  | cons op os ih =>
    rcases ih (applyOp st op) h with h' | ⟨o, ho, hw⟩
    · rcases applyOp_edges_mem _ _ _ h' with h'' | hw
      · exact Or.inl h''
      · exact Or.inr ⟨op, List.mem_cons_self _ _, hw⟩
    · exact Or.inr ⟨o, List.mem_cons_of_mem _ ho, hw⟩

theorem foldl_pair_mono (ops : List GOp) (st : GState) (p : String × String)
    (h : p ∈ st.graph.edges.map Prod.fst) :
    p ∈ (ops.foldl applyOp st).graph.edges.map Prod.fst := by
  induction ops generalizing st with
  | nil => exact h
  | cons op os ih => exact ih _ (applyOp_pair_mono _ _ _ h)

theorem foldl_filter_source (ops : List GOp) (st : GState) (X : String)
    (h : ∀ op ∈ ops, ∀ w ∈ opWrites op, w.1.1 ≠ X) :
    (ops.foldl applyOp st).graph.edges.filter (fun e => e.1.1 = X) =
      st.graph.edges.filter (fun e => e.1.1 = X) := by
  induction ops generalizing st with
  | nil => rfl
  | cons op os ih =>
    simp only [List.foldl_cons]
    rw [ih _ (fun o ho => h o (List.mem_cons_of_mem _ ho)),
      applyOp_filter_source _ _ _ (h op (List.mem_cons_self _ _))]

/-- `_process_file_contents` (returning or raising) is the fold of its
operation list. -/
theorem pfcState_eq_foldl (st : GState) (fn c : String) :
    pfcState st fn c = (allOps fn c).foldl applyOp st := by
  unfold pfcState processFileContents allOps
  by_cases h : extract_version_constraints c = []
  · simp [h, List.foldl_append]
  · simp [h]

theorem addNodeRaw_nodes_of_not_hasNode (g : Graph) (id : String) (d : NodeData)
    (h : ¬g.hasNode id = true) : (g.addNodeRaw id d).nodes = g.nodes ++ [(id, d)] := by
  unfold Graph.addNodeRaw; simp [h]

/-! ## Claim theorems -/

set_option maxRecDepth 4000000

/-- C1 (counterexample): the identity key of a method node does not
encode the enclosing classes.  `A.java` declares `Outer` with inner
class `Inner` whose method is `m` (the extractor also attributes `m` to
`Outer`), and the unrelated `B.java` declares `Other` with its own
method `m`; the claim demands distinct nodes per scope, but the run
produces exactly one `Method: m` node, shared by all three classes via
`HAS_METHOD` edges. -/
theorem C1_counterexample :
    (c1run.gs.graph.nodes.filter (fun p => p.1 = "Method: m")).length = 1 ∧
    (("Class: Outer", "Method: m"), "HAS_METHOD") ∈ c1run.gs.graph.edges ∧
    (("Class: Inner", "Method: m"), "HAS_METHOD") ∈ c1run.gs.graph.edges ∧
    (("Class: Other", "Method: m"), "HAS_METHOD") ∈ c1run.gs.graph.edges := by
  decide

/-- C1 (amended): a method node's identity key is `"Method: "` followed
by the bare method name — `_add_method_node` can only create that one
identifier, independent of the enclosing class name threaded to it, so
same-named methods in unrelated scopes share one node. -/
theorem C1_method_key_ignores_context (st : GState) (cn : String) (mi : MethodInfo) :
    (applyOp st (.addMethod cn mi)).graph.nodes.map Prod.fst =
      (if st.graph.hasNode (methodNodeId mi.name) then st.graph.nodes.map Prod.fst
       else st.graph.nodes.map Prod.fst ++ [methodNodeId mi.name]) := by
  simp only [applyOp]
  by_cases h : st.graph.hasNode (methodNodeId mi.name) = true
  · rw [ensureNode_of_hasNode _ _ _ _ h]
    simp only [h, if_pos, ite_true]
    split
    · rw [addE_nodes_of_hasNode _ _ _ _ (by assumption) h]
    · rfl
  · simp only [h, ite_false]
    have hnodes : (ensureNode st (methodNodeId mi.name)
        (.mthd mi.name mi.return_type mi.parameters mi.annotations mi.modifiers
          mi.is_constructor)
        (fun s => { s with total_methods := s.total_methods + 1 })).graph.nodes =
        st.graph.nodes ++ [(methodNodeId mi.name,
          .mthd mi.name mi.return_type mi.parameters mi.annotations mi.modifiers
            mi.is_constructor)] := by
      unfold ensureNode
      simp only [h, ite_false]
      exact addNodeRaw_nodes_of_not_hasNode _ _ _ h
    have hhas := ensureNode_hasNode_self st (methodNodeId mi.name)
      (.mthd mi.name mi.return_type mi.parameters mi.annotations mi.modifiers
        mi.is_constructor)
      (fun s => { s with total_methods := s.total_methods + 1 })
    split
    · rw [addE_nodes_of_hasNode _ _ _ _ (by assumption) hhas, hnodes]
      simp
    · rw [hnodes]; simp

/-- C2 (counterexample): on the specified end-to-end input the graph
contains no parameter node and no `HAS_PARAMETER` edge — the node and
edge lists are exactly these (the `i18n: runtime` node comes from the
locale heuristic matching `com` and `bar`), and no edge is labeled
`HAS_PARAMETER`. -/
theorem C2_counterexample :
    c2run.gs.graph.nodes.map Prod.fst =
      ["File: Foo.java", "Package: com.acme", "Class: Foo", "Method: Foo", "Method: bar",
       "i18n: runtime"] ∧
    c2run.gs.graph.edges.map (fun e => e.2) =
      ["CONTAINS_FILE", "DEFINES", "HAS_METHOD", "HAS_METHOD", "USES"] ∧
    ¬ c2run.gs.graph.edges.any (fun e => e.2 = "HAS_PARAMETER") = true := by
  decide

/-- C2 (amended): the specified input yields the File node, Package
`com.acme`, Class `Foo`, constructor method `Foo`, method `bar` with
return type `String` carrying parameter `x : String` as an attribute,
and the `CONTAINS_FILE`/`DEFINES`/`HAS_METHOD` edges; no Parameter node
or `HAS_PARAMETER` edge exists — parameters live only in the method
node's attribute bag. -/
theorem C2_end_to_end :
    c2run.gs.graph.nodeData "File: Foo.java" = some (.file "Foo.java") ∧
    c2run.gs.graph.nodeData "Package: com.acme" = some (.pkg "com.acme") ∧
    c2run.gs.graph.nodeData "Class: Foo" = some (.clsN "class" "Foo") ∧
    c2run.gs.graph.nodeData "Method: Foo" =
      some (.mthd "Foo" "public" [] [] [] true) ∧
    c2run.gs.graph.nodeData "Method: bar" =
      some (.mthd "bar" "String" [⟨"x", "String", []⟩] [] ["public"] false) ∧
    (("Package: com.acme", "File: Foo.java"), "CONTAINS_FILE") ∈ c2run.gs.graph.edges ∧
    (("File: Foo.java", "Class: Foo"), "DEFINES") ∈ c2run.gs.graph.edges ∧
    (("Class: Foo", "Method: Foo"), "HAS_METHOD") ∈ c2run.gs.graph.edges ∧
    (("Class: Foo", "Method: bar"), "HAS_METHOD") ∈ c2run.gs.graph.edges := by
  decide

/-- C3: processing an interface (or enum) declaration does not increment
its counter.  `_add_class_node` normalizes `str(ElementType.INTERFACE)`
to `'elementtype.interface'` but maps only `'elementtype.class'`, so the
`class_types` lookup misses (the code logs "Unknown class type") even
though the interface node itself is created; the class counter works.
The `class_types` dict's own `'interface'`/`'enum'` entries are
unreachable, so the code contradicts its own intent. -/
theorem C3_interface_enum_counters_stuck :
    c3run.gs.stats.total_interfaces = 0 ∧
    c3run.gs.stats.total_enums = 0 ∧
    c3run.gs.stats.total_classes = 1 ∧
    (c3run.gs.graph.nodes.filter
      (fun p => match p.2 with
        | .clsN ct _ => ct = "elementtype.interface"
        | _ => false)).length = 1 ∧
    (c3run.gs.graph.nodes.filter
      (fun p => match p.2 with
        | .clsN ct _ => ct = "elementtype.enum"
        | _ => false)).length = 1 := by
  decide

/-- C4 (counterexample): the Package node created for `package p;` has
no inbound edge — its only connection is the outbound `CONTAINS_FILE`
edge to the file. -/
theorem C4_counterexample :
    c4run.gs.graph.hasNode "Package: p" = true ∧
    c4run.gs.graph.edges.all (fun e => e.1.2 ≠ "Package: p") = true ∧
    (("Package: p", "File: A.java"), "CONTAINS_FILE") ∈ c4run.gs.graph.edges := by
  decide

/-- C4 (amended): `_add_package_node` connects a package to the file
that produced it by an outbound `CONTAINS_FILE` edge (Package → File)
and never adds an inbound edge to the package node. -/
theorem C4_package_edges_outbound (st : GState) (fn p : String)
    (h : fn ≠ "Package: " ++ p) :
    (applyOp st (.addPackage fn p)).graph.hasNode ("Package: " ++ p) = true ∧
    (("Package: " ++ p, fn), "CONTAINS_FILE") ∈
      (applyOp st (.addPackage fn p)).graph.edges ∧
    (applyOp st (.addPackage fn p)).graph.edges.filter
        (fun e => e.1.2 = "Package: " ++ p) =
      st.graph.edges.filter (fun e => e.1.2 = "Package: " ++ p) := by
  refine ⟨?_, ?_, ?_⟩
  · exact applyOp_ensures st _ _ (by simp [opEnsures])
  · simp only [applyOp]
    rw [addE_edges, ensureNode_edges]
    exact self_mem_upsertEdgeList _ _ _ _
  · simp only [applyOp]
    rw [addE_edges, ensureNode_edges]
    exact filter_target_upsertEdgeList _ _ _ _ _ h

/-- C4 (witness): the amended statement applied to the concrete run's
starting state. -/
theorem C4_package_edges_outbound_witness :
    (applyOp GState.init (.addPackage "File: A.java" "p")).graph.hasNode
        "Package: p" = true ∧
    (("Package: p", "File: A.java"), "CONTAINS_FILE") ∈
      (applyOp GState.init (.addPackage "File: A.java" "p")).graph.edges ∧
    (applyOp GState.init (.addPackage "File: A.java" "p")).graph.edges.filter
        (fun e => e.1.2 = "Package: p") =
      GState.init.graph.edges.filter (fun e => e.1.2 = "Package: p") :=
  C4_package_edges_outbound GState.init "File: A.java" "p" (by decide)

/-- C6: a method record is flagged `is_constructor` exactly when its
name equals the enclosing class's simple name — both for
`extract_methods` run under a class name and for every method of every
record produced by `extract_classes`. -/
theorem C6_constructor_classification (content cn : String) :
    ((extract_methods content (some cn)).all
      (fun mi => mi.is_constructor == decide (mi.name = cn))) = true ∧
    ((extract_classes content).all
      (fun ci => ci.methods.all
        (fun mi => mi.is_constructor == decide (mi.name = ci.name)))) = true := by
  constructor
  · rw [List.all_eq_true]
    intro mi hmi
    unfold extract_methods at hmi
    rw [List.mem_map] at hmi
    obtain ⟨m, _, rfl⟩ := hmi
    simp
  · rw [List.all_eq_true]
    intro ci hci
    unfold extract_classes at hci
    rw [List.mem_map] at hci
    obtain ⟨m, _, rfl⟩ := hci
    rw [List.all_eq_true]
    intro mi hmi
    unfold extract_methods at hmi
    rw [List.mem_map] at hmi
    obtain ⟨m', _, rfl⟩ := hmi
    simp

/-- C7 (counterexample): a Maven dependency with no `version` element
yields `None` (null), not the empty string, as its version — the
extracted record for `c7tree` is exactly `c7rec`, whose version is
`none` and in particular not `some ""`. -/
theorem C7_counterexample :
    extract_maven_dependencies c7tree = [c7rec] ∧
    c7rec.version = none ∧ c7rec.version ≠ some "" := by
  refine ⟨by decide, rfl, by decide⟩

/-- C7 (amended): every Maven dependency record copies `groupId`,
`artifactId`, and the `version`/`scope` texts when present; a missing
`version` element yields `None` and a missing `scope` element yields
`'compile'`.  Every Gradle record comes one-per-match of the
configuration-keyword-plus-quoted-triple pattern, with all three
coordinates present and scope `'compile'`. -/
theorem C7_dependency_fields :
    (∀ (e : XmlElem) (d : Dependency), dependencyOfElem e = some d →
      ((e.findChild "version" = none → d.version = none) ∧
       (∀ v, e.findChild "version" = some v → d.version = v.text) ∧
       (e.findChild "scope" = none → d.scope = some "compile") ∧
       (∀ s, e.findChild "scope" = some s → d.scope = s.text) ∧
       (∃ g, e.findChild "groupId" = some g ∧ d.group_id = g.text) ∧
       (∃ a, e.findChild "artifactId" = some a ∧ d.artifact_id = a.text))) ∧
    (∀ content : String,
      (extract_gradle_dependencies content).length =
        (finditer gradle_dependency_pattern content.data).length ∧
      (extract_gradle_dependencies content).all
        (fun d => decide (d.scope = some "compile") && decide (d.group_id ≠ none) &&
          decide (d.artifact_id ≠ none) && decide (d.version ≠ none)) = true) := by
  constructor
  · intro e d h
    unfold dependencyOfElem at h
    cases hg : e.findChild "groupId" with
    | none => rw [hg] at h; cases h
    | some g =>
      cases ha : e.findChild "artifactId" with
      | none => rw [hg, ha] at h; cases h
      | some a =>
        rw [hg, ha] at h
        injection h with h
        subst h
        refine ⟨?_, ?_, ?_, ?_, ⟨g, rfl, rfl⟩, ⟨a, rfl, rfl⟩⟩
        · intro hv; simp [hv]
        · intro v hv; simp [hv]
        · intro hs; simp [hs]
        · intro s hs; simp [hs]
  · intro content
    constructor
    · unfold extract_gradle_dependencies
      rw [List.length_map]
    · rw [List.all_eq_true]
      intro d hd
      unfold extract_gradle_dependencies at hd
      rw [List.mem_map] at hd
      obtain ⟨m, _, rfl⟩ := hd
      simp

/-- C7 (witness): the amended statement applied to the concrete
version-less, scope-less dependency element. -/
theorem C7_dependency_fields_witness :
    c7rec.version = none ∧ c7rec.scope = some "compile" :=
  ⟨(C7_dependency_fields.1 c7elem c7rec (by decide)).1 rfl,
   (C7_dependency_fields.1 c7elem c7rec (by decide)).2.2.1 rfl⟩

/-- C8 (counterexample): re-running `_process_file_contents` over the
same text against the same graph is not idempotent on edge triples: the
first run over `c8content` cannot link interface `A`'s method `m`
(there is no `Class: A` node yet), but the second run sees the
`Class: A` node created later in the first run and adds a new
`HAS_METHOD` edge. -/
theorem C8_counterexample :
    c8g2.graph.nodes = c8g1.graph.nodes ∧
    (("Class: A", "Method: m"), "HAS_METHOD") ∈ c8g2.graph.edges ∧
    ¬((("Class: A", "Method: m"), "HAS_METHOD") ∈ c8g1.graph.edges) ∧
    c8g1.graph.edges ≠ c8g2.graph.edges := by
  refine ⟨by decide, by decide, by decide, by decide⟩

/-- C8 (amended): a second identical run of the per-file pipeline
creates no new node (the node list is literally unchanged) and keeps
every connected ordered pair connected; full edge-triple idempotence
fails only through the state-dependent `HAS_METHOD` class lookup, as the
counterexample shows. -/
theorem C8_idempotence_amended (st : GState) (fn c : String) :
    (pfcState (pfcState st fn c) fn c).graph.nodes = (pfcState st fn c).graph.nodes ∧
    ((pfcState st fn c).graph.edges.map Prod.fst).all
      (fun p => ((pfcState (pfcState st fn c) fn c).graph.edges.map Prod.fst).contains p)
      = true := by
  constructor
  · rw [pfcState_eq_foldl (pfcState st fn c) fn c]
    apply foldl_nodes_stable
    intro op hop x hx
    rw [pfcState_eq_foldl st fn c]
    exact foldl_ensures _ _ _ _ hop hx
  · rw [List.all_eq_true]
    intro p hp
    rw [List.contains_iff_exists_mem_beq]
    refine ⟨p, ?_, by simp⟩
    rw [pfcState_eq_foldl (pfcState st fn c) fn c]
    exact foldl_pair_mono _ _ _ hp

theorem applyOp_files_with_errors (st : GState) (op : GOp) :
    (applyOp st op).stats.files_with_errors = st.stats.files_with_errors := by
  cases op <;>
    simp only [applyOp, GState.addE] <;>
    (try split) <;>
    (unfold ensureNode) <;>
    split <;>
    (first
      | rfl
      | (split
         · rfl
         · split <;> rfl))

theorem foldl_files_with_errors (ops : List GOp) (st : GState) :
    (ops.foldl applyOp st).stats.files_with_errors = st.stats.files_with_errors := by
  induction ops generalizing st with
  | nil => rfl
  | cons op os ih => simp only [List.foldl_cons]; rw [ih, applyOp_files_with_errors]

theorem pfcState_files_with_errors (st : GState) (fn c : String) :
    (pfcState st fn c).stats.files_with_errors = st.stats.files_with_errors := by
  rw [pfcState_eq_foldl]; exact foldl_files_with_errors _ _

theorem pfcState_hasNode_mono (st : GState) (fn c x : String)
    (h : st.graph.hasNode x = true) : (pfcState st fn c).graph.hasNode x = true := by
  rw [pfcState_eq_foldl]; exact foldl_hasNode_mono _ _ _ h

theorem pfcState_pair_mono (st : GState) (fn c : String) (p : String × String)
    (h : p ∈ st.graph.edges.map Prod.fst) :
    p ∈ (pfcState st fn c).graph.edges.map Prod.fst := by
  rw [pfcState_eq_foldl]; exact foldl_pair_mono _ _ _ h

/-- The graph component of a processed Java file is the per-file
pipeline's result (faulting or not) over the state holding the file
node. -/
theorem processJavaFile_graph (st : DState) (f : JavaFile) (c : String)
    (ha : st.analyzed_files.contains f.path = false) (hr : f.read = some c) :
    (processJavaFile st f).gs.graph =
      (pfcState { st.gs with
          graph := st.gs.graph.addNodeRaw (fileNodeId f.path) (.file f.path) }
        (fileNodeId f.path) c).graph := by
  unfold processJavaFile
  simp only [ha, hr, Bool.false_eq_true, if_false]
  cases hpc : processFileContents
      { st.gs with graph := st.gs.graph.addNodeRaw (fileNodeId f.path) (.file f.path) }
      (fileNodeId f.path) c with
  | ok gs' => simp [pfcState, hpc]
  | error gs' => simp [pfcState, hpc]

theorem processJavaFile_hasNode_mono (st : DState) (f : JavaFile) (x : String)
    (h : st.gs.graph.hasNode x = true) :
    (processJavaFile st f).gs.graph.hasNode x = true := by
  by_cases ha : st.analyzed_files.contains f.path = true
  · unfold processJavaFile
    simp only [ha, if_true]
    exact h
  · rw [Bool.not_eq_true] at ha
    cases hr : f.read with
    | none =>
      unfold processJavaFile
      simp only [ha, hr, Bool.false_eq_true, if_false]
      exact h
    | some c =>
      have hg := processJavaFile_graph st f c ha hr
      unfold Graph.hasNode at h ⊢
      rw [hg]
      have h2 : ({ st.gs with
          graph := st.gs.graph.addNodeRaw (fileNodeId f.path) (.file f.path) } :
          GState).graph.nodes.any (fun p => p.1 = x) = true :=
        hasNode_addNodeRaw_mono _ _ _ _ h
      exact pfcState_hasNode_mono _ _ _ _ h2

theorem processJavaFile_pair_mono (st : DState) (f : JavaFile) (p : String × String)
    (h : p ∈ st.gs.graph.edges.map Prod.fst) :
    p ∈ (processJavaFile st f).gs.graph.edges.map Prod.fst := by
  by_cases ha : st.analyzed_files.contains f.path = true
  · unfold processJavaFile
    simp only [ha, if_true]
    exact h
  · rw [Bool.not_eq_true] at ha
    cases hr : f.read with
    | none =>
      unfold processJavaFile
      simp only [ha, hr, Bool.false_eq_true, if_false]
      exact h
    | some c =>
      rw [processJavaFile_graph st f c ha hr]
      apply pfcState_pair_mono
      rw [addNodeRaw_edges]
      exact h

theorem processJavaFiles_hasNode_mono (files : List JavaFile) (st : DState) (x : String)
    (h : st.gs.graph.hasNode x = true) :
    (processJavaFiles st files).gs.graph.hasNode x = true := by
  induction files generalizing st with
  | nil => exact h
  | cons f fs ih => exact ih _ (processJavaFile_hasNode_mono _ _ _ h)

theorem processJavaFiles_pair_mono (files : List JavaFile) (st : DState)
    (p : String × String) (h : p ∈ st.gs.graph.edges.map Prod.fst) :
    p ∈ (processJavaFiles st files).gs.graph.edges.map Prod.fst := by
  induction files generalizing st with
  | nil => exact h
  | cons f fs ih => exact ih _ (processJavaFile_pair_mono _ _ _ h)

/-- C9: a fault in one file is isolated.  (i) The driver always
continues with the remaining files.  (ii) A read/decode failure
increments `files_with_errors` by exactly one and leaves the graph
untouched.  (iii) The modelled in-pipeline fault — `_add_version_info`'s
`AttributeError` on any version-constraint match — also increments the
counter by exactly one, on top of whatever the partial processing did
(which never touches the counter).  (iv) Every node id and every
connected edge pair already in the graph survives any further run.
(v) Concretely, the middle file of `c9run` (containing `@since 1.0`)
errors, yet its own pre-fault facts and the neighbours' facts are all
present. -/
theorem C9_error_isolation :
    (∀ (st : DState) (f : JavaFile) (rest : List JavaFile),
      processJavaFiles st (f :: rest) = processJavaFiles (processJavaFile st f) rest) ∧
    (∀ (st : DState) (f : JavaFile),
      st.analyzed_files.contains f.path = false → f.read = none →
      (processJavaFile st f).gs.stats.files_with_errors =
        st.gs.stats.files_with_errors + 1 ∧
      (processJavaFile st f).gs.graph = st.gs.graph) ∧
    (∀ (st : DState) (f : JavaFile) (c : String),
      st.analyzed_files.contains f.path = false → f.read = some c →
      extract_version_constraints c ≠ [] →
      (processJavaFile st f).gs.stats.files_with_errors =
        st.gs.stats.files_with_errors + 1) ∧
    (∀ (st : DState) (files : List JavaFile) (x : String),
      st.gs.graph.hasNode x = true →
      (processJavaFiles st files).gs.graph.hasNode x = true) ∧
    (∀ (st : DState) (files : List JavaFile) (p : String × String),
      p ∈ st.gs.graph.edges.map Prod.fst →
      p ∈ (processJavaFiles st files).gs.graph.edges.map Prod.fst) ∧
    (c9run.gs.stats.files_with_errors = 1 ∧
     c9run.files_processed = 3 ∧
     c9run.gs.graph.hasNode "Class: B" = true ∧
     c9run.gs.graph.hasNode "Class: C" = true ∧
     (("File: A.java", "Class: A"), "DEFINES") ∈ c9run.gs.graph.edges ∧
     (("Package: p", "File: A.java"), "CONTAINS_FILE") ∈ c9run.gs.graph.edges) := by
  refine ⟨fun st f rest => rfl, ?_, ?_,
    fun st files x h => processJavaFiles_hasNode_mono files st x h,
    fun st files p h => processJavaFiles_pair_mono files st p h, by decide⟩
  · intro st f ha hr
    unfold processJavaFile
    simp only [ha, hr, Bool.false_eq_true, if_false]
    exact ⟨trivial, trivial⟩
  · intro st f c ha hr hv
    unfold processJavaFile
    simp only [ha, hr, Bool.false_eq_true, if_false]
    have hpc : processFileContents
        { st.gs with graph := st.gs.graph.addNodeRaw (fileNodeId f.path) (.file f.path) }
        (fileNodeId f.path) c =
        .error ((fileOps (fileNodeId f.path) c).foldl applyOp
          { st.gs with graph := st.gs.graph.addNodeRaw (fileNodeId f.path) (.file f.path) }) := by
      unfold processFileContents
      simp [hv]
    rw [hpc]
    simp only
    rw [foldl_files_with_errors]

/-- C9 (witness): the isolation statement applied to a concrete
unreadable file and to the concrete `@since`-crashing file over the
empty state. -/
theorem C9_error_isolation_witness :
    (processJavaFile DState.init ⟨"X.java", none⟩).gs.stats.files_with_errors = 0 + 1 ∧
    (processJavaFile DState.init
        ⟨"B.java", some "/** @since 1.0 */ class B \x7b \x7d"⟩).gs.stats.files_with_errors
      = 0 + 1 :=
  ⟨(C9_error_isolation.2.1 DState.init ⟨"X.java", none⟩ (by decide) rfl).1,
   C9_error_isolation.2.2.1 DState.init ⟨"B.java", some "/** @since 1.0 */ class B \x7b \x7d"⟩
     "/** @since 1.0 */ class B \x7b \x7d" (by decide) rfl (by decide)⟩

theorem head_prefixed (pre s : String) (c : Char) (rest : List Char)
    (hp : pre.data = c :: rest) : (pre ++ s).data.head? = some c := by
  rw [String.data_append, hp]; rfl

theorem string_ne_of_head (a b : String) (ca cb : Char)
    (hca : a.data.head? = some ca) (hcb : b.data.head? = some cb) (h : ca ≠ cb) :
    a ≠ b := by
  intro he
  rw [he, hcb] at hca
  exact h (Option.some_injective _ hca).symm

/-- Every operation in a per-file run carries the run's file node. -/
theorem allOps_fromFile (fn c : String) :
    (allOps fn c).all (opFromFile fn) = true := by
  unfold allOps fileOps locOps
  rw [List.all_eq_true]
  intro op hop
  simp only [List.mem_append] at hop
  rcases hop with ((((((h | h) | h) | h) | h) | h) | h)
  · cases hpk : extract_package c <;> rw [hpk] at h
    · cases h
    · rcases List.mem_singleton.mp h with rfl
      simp [opFromFile]
  · rcases List.mem_map.mp h with ⟨im, _, rfl⟩
    simp [opFromFile]
  · rcases List.mem_flatten.mp h with ⟨chunk, hchunk, hopc⟩
    rcases List.mem_map.mp hchunk with ⟨ci, _, rfl⟩
    rcases List.mem_cons.mp hopc with rfl | hopc
    · simp [opFromFile]
    · rcases List.mem_append.mp hopc with hopc | hopc
      · rcases List.mem_map.mp hopc with ⟨a, _, rfl⟩
        simp [opFromFile]
      · rcases List.mem_flatten.mp hopc with ⟨inner, hinner, hopi⟩
        rcases List.mem_map.mp hinner with ⟨m, _, rfl⟩
        rcases List.mem_cons.mp hopi with rfl | hopi
        · simp [opFromFile]
        · rcases List.mem_map.mp hopi with ⟨a, _, rfl⟩
          simp [opFromFile]
  · rcases List.mem_map.mp h with ⟨x, _, rfl⟩
    simp [opFromFile]
  · rcases List.mem_map.mp h with ⟨x, _, rfl⟩
    simp [opFromFile]
  · rcases List.mem_map.mp h with ⟨x, _, rfl⟩
    simp [opFromFile]
  · split at h
    · rcases List.mem_map.mp h with ⟨x, _, rfl⟩
      simp [opFromFile]
    · cases h

/-- The source of any write of a per-file operation is the file node, a
`Package: ` node, or a `Class: ` node. -/
theorem opWrites_source_shape (fn : String) (op : GOp)
    (hf : opFromFile fn op = true) (w : Edge) (hw : w ∈ opWrites op) :
    w.1.1 = fn ∨ (∃ q, w.1.1 = "Package: " ++ q) ∨ (∃ q, w.1.1 = "Class: " ++ q) := by
  cases op with
  | addPackage fn' p =>
    rcases List.mem_singleton.mp hw with rfl
    exact Or.inr (Or.inl ⟨p, rfl⟩)
  | addMethod cn mi =>
    rcases List.mem_singleton.mp hw with rfl
    exact Or.inr (Or.inr ⟨cn, rfl⟩)
  | addImport fn' im =>
    rcases List.mem_singleton.mp hw with rfl
    simp only [opFromFile, decide_eq_true_eq] at hf
    exact Or.inl hf
  | addClass fn' name ctype =>
    rcases List.mem_singleton.mp hw with rfl
    simp only [opFromFile, decide_eq_true_eq] at hf
    exact Or.inl hf
  | addAnnot fn' a =>
    rcases List.mem_singleton.mp hw with rfl
    simp only [opFromFile, decide_eq_true_eq] at hf
    exact Or.inl hf
  | addComment fn' cc =>
    rcases List.mem_singleton.mp hw with rfl
    simp only [opFromFile, decide_eq_true_eq] at hf
    exact Or.inl hf
  | addLog fn' l =>
    rcases List.mem_singleton.mp hw with rfl
    simp only [opFromFile, decide_eq_true_eq] at hf
    exact Or.inl hf
  | addIntegration fn' i =>
    rcases List.mem_singleton.mp hw with rfl
    simp only [opFromFile, decide_eq_true_eq] at hf
    exact Or.inl hf
  | addLocalization fn' l =>
    rcases List.mem_singleton.mp hw with rfl
    simp only [opFromFile, decide_eq_true_eq] at hf
    exact Or.inl hf

/-- C10: methods extracted from interface/enum declarations get a method
node but no inbound `HAS_METHOD` edge.  `_add_method_node` looks up
`"Class: " + name`, which exists only for class-kind declarations, so a
node whose identifier carries the `Elementtype.` prefix (an interface or
enum node) never gains an outbound edge during a per-file run — its
outgoing edge set is untouched — while every extracted method's node is
created. -/
theorem C10_interface_methods_unlinked (st : GState) (p c X : String)
    (hX : "Elementtype.".data.isPrefixOf X.data = true) :
    (pfcState st (fileNodeId p) c).graph.edges.filter (fun e => e.1.1 = X) =
      st.graph.edges.filter (fun e => e.1.1 = X) ∧
    (∀ ci ∈ extract_classes c, ∀ mi ∈ ci.methods,
      (pfcState st (fileNodeId p) c).graph.hasNode (methodNodeId mi.name) = true) := by
  have hXd : ∃ t, X.data = 'E' :: t := by
    rcases (List.isPrefixOf_iff_prefix.mp hX) with ⟨t, ht⟩
    exact ⟨"lementtype.".data ++ t, by rw [← ht]; rfl⟩
  obtain ⟨t, hXd⟩ := hXd
  have hXne : ∀ (pre s : String) (cc : Char) (rest : List Char),
      pre.data = cc :: rest → cc ≠ 'E' → pre ++ s ≠ X := by
    intro pre s cc rest hp hcc
    exact string_ne_of_head _ _ cc 'E' (head_prefixed pre s cc rest hp)
      (by rw [hXd]; rfl) hcc
  constructor
  · rw [pfcState_eq_foldl]
    apply foldl_filter_source
    intro op hop w hw
    have hf : opFromFile (fileNodeId p) op = true :=
      List.all_eq_true.mp (allOps_fromFile (fileNodeId p) c) op hop
    rcases opWrites_source_shape _ _ hf w hw with h | ⟨q, h⟩ | ⟨q, h⟩
    · rw [h]
      exact hXne "File: " p 'F' "ile: ".data rfl (by decide)
    · rw [h]
      exact hXne "Package: " q 'P' "ackage: ".data rfl (by decide)
    · rw [h]
      exact hXne "Class: " q 'C' "lass: ".data rfl (by decide)
  · intro ci hci mi hmi
    have hmem : GOp.addMethod ci.name mi ∈ allOps (fileNodeId p) c := by
      apply List.mem_append_left
      unfold fileOps
      apply List.mem_append_left
      apply List.mem_append_left
      apply List.mem_append_left
      apply List.mem_append_right
      rw [List.mem_flatten]
      refine ⟨_, List.mem_map.mpr ⟨ci, hci, rfl⟩, ?_⟩
      apply List.mem_cons_of_mem
      apply List.mem_append_right
      rw [List.mem_flatten]
      refine ⟨_, List.mem_map.mpr ⟨mi, hmi, rfl⟩, List.mem_cons_self _ _⟩
    rw [pfcState_eq_foldl]
    exact foldl_ensures _ _ _ _ hmem (by simp [opEnsures])

/-- C10 (witness): on the concrete interface input, the interface node
has no outgoing edges while the method node exists. -/
theorem C10_interface_methods_unlinked_witness :
    (pfcState GState.init (fileNodeId "I.java") c10content).graph.edges.filter
        (fun e => e.1.1 = "Elementtype.interface: I") = [] ∧
    (pfcState GState.init (fileNodeId "I.java") c10content).graph.hasNode
      (methodNodeId c10mi.name) = true := by
  have h := C10_interface_methods_unlinked GState.init "I.java" c10content
    "Elementtype.interface: I" (by decide)
  exact ⟨h.1.trans (by decide), h.2 c10ci (by decide) c10mi (by decide)⟩

/-! ## Lemmas about the lexical block scanner -/

theorem ebcAux_cons_none (st : ScanSt) (i : Nat) (c : Char) (cs : List Char)
    (st' : ScanSt) (h : ebcStep st i c cs.head? = (st', none)) :
    ebcAux st i (c :: cs) = ebcAux st' (i + 1) cs := by
  have he : ebcAux st i (c :: cs) =
      (match ebcStep st i c cs.head? with
        | (_, some s) => some (s + 1, i)
        | (st', none) => ebcAux st' (i + 1) cs) := rfl
  rw [he, h]

theorem ebcAux_cons_some (st : ScanSt) (i : Nat) (c : Char) (cs : List Char)
    (st' : ScanSt) (s : Nat) (h : ebcStep st i c cs.head? = (st', some s)) :
    ebcAux st i (c :: cs) = some (s + 1, i) := by
  have he : ebcAux st i (c :: cs) =
      (match ebcStep st i c cs.head? with
        | (_, some s) => some (s + 1, i)
        | (st', none) => ebcAux st' (i + 1) cs) := rfl
  rw [he, h]

/-- Inside a string literal, any character other than the opening quote
leaves the scanner state unchanged and is never counted. -/
theorem ebcStep_inString (st : ScanSt) (i : Nat) (c : Char) (next : Option Char)
    (hS : st.inString = true) (hC : st.inComment = false) (hCh : st.inChar = false)
    (hne : st.stringChar ≠ some c) : ebcStep st i c next = (st, none) := by
  cases st with
  | mk d iS iC iCm sc sp =>
    simp only at hS hC hCh hne
    subst hS hC hCh
    unfold ebcStep
    split_ifs <;> simp_all

/-- Inside a line comment, any character other than a newline leaves the
scanner state unchanged and is never counted. -/
theorem ebcStep_inComment (st : ScanSt) (i : Nat) (c : Char) (next : Option Char)
    (hC : st.inComment = true) (hne : c ≠ '\n') : ebcStep st i c next = (st, none) := by
  cases st with
  | mk d iS iC iCm sc sp =>
    simp only at hC
    subst hC
    unfold ebcStep
    split_ifs <;> simp_all

/-- Only a closing brace can make the scanner emit. -/
theorem ebcStep_snd_none (st : ScanSt) (i : Nat) (c : Char) (next : Option Char)
    (h : c ≠ '\x7d') : (ebcStep st i c next).2 = none := by
  unfold ebcStep
  split_ifs <;> simp_all

theorem ebcAux_skip_inString (st : ScanSt) (hS : st.inString = true)
    (hC : st.inComment = false) (hCh : st.inChar = false) :
    ∀ (mid : List Char), (∀ cc ∈ mid, st.stringChar ≠ some cc) →
    ∀ (i : Nat) (rest : List Char),
      ebcAux st i (mid ++ rest) = ebcAux st (i + mid.length) rest := by
  intro mid
  induction mid with
  | nil => intro _ i rest; simp
  | cons c cs ih =>
    intro hmid i rest
    rw [List.cons_append,
      ebcAux_cons_none _ _ _ _ _
        (ebcStep_inString st i c _ hS hC hCh (hmid c (List.mem_cons_self _ _))),
      ih (fun cc hcc => hmid cc (List.mem_cons_of_mem _ hcc)) (i + 1) rest]
    congr 1
    simp only [List.length_cons]
    omega

theorem ebcAux_skip_inComment (st : ScanSt) (hC : st.inComment = true) :
    ∀ (mid : List Char), (∀ cc ∈ mid, cc ≠ '\n') →
    ∀ (i : Nat) (rest : List Char),
      ebcAux st i (mid ++ rest) = ebcAux st (i + mid.length) rest := by
  intro mid
  induction mid with
  | nil => intro _ i rest; simp
  | cons c cs ih =>
    intro hmid i rest
    rw [List.cons_append,
      ebcAux_cons_none _ _ _ _ _
        (ebcStep_inComment st i c _ hC (hmid c (List.mem_cons_self _ _))),
      ih (fun cc hcc => hmid cc (List.mem_cons_of_mem _ hcc)) (i + 1) rest]
    congr 1
    simp only [List.length_cons]
    omega

theorem ebcAux_none_of_no_close (l : List Char) (h : ∀ cc ∈ l, cc ≠ '\x7d') :
    ∀ (st : ScanSt) (i : Nat), ebcAux st i l = none := by
  induction l with
  | nil => intro st i; rfl
  | cons c cs ih =>
    intro st i
    have h2 : ebcStep st i c cs.head? =
        ((ebcStep st i c cs.head?).1, none) := by
      have := ebcStep_snd_none st i c cs.head? (h c (List.mem_cons_self _ _))
      exact Prod.ext rfl this
    rw [ebcAux_cons_none _ _ _ _ _ h2]
    exact ih (fun cc hcc => h cc (List.mem_cons_of_mem _ hcc)) _ _

/-- C5 (counterexample): the scanner does count a closing brace inside a
`/* */` block comment — it has no block-comment handling (only `//`
line comments) — so the block body is cut at the commented `}` instead
of extending to the real one. -/
theorem C5_counterexample :
    extract_block_content "\x7b /* \x7d */ \x7d" = " /* " ∧
    (" /* " : String) ≠ " /* \x7d */ " := by
  exact ⟨by decide, by decide⟩

/-- C5 (amended): the block scanner does not count a brace inside a
string literal or character literal (a quote-delimited run without
escape processing; braces may appear freely between the quotes) nor
inside a `//` line comment, whose suppression ends at the next newline;
block comments are NOT suppressed (counterexample above); and on input
with no closing brace at all it returns the empty string rather than
failing. -/
theorem C5_scanner_suppression :
    (∀ (q : Char), (q = '"' ∨ q = '\'') → ∀ (mid post : List Char),
      (∀ cc ∈ mid, cc ≠ q) →
      extract_block_content
          (String.mk ('\x7b' :: ' ' :: q :: (mid ++ (q :: ' ' :: '\x7d' :: post)))) =
        String.mk (' ' :: q :: (mid ++ [q, ' ']))) ∧
    (∀ (mid post : List Char), (∀ cc ∈ mid, cc ≠ '\n') →
      extract_block_content
          (String.mk ('\x7b' :: '/' :: '/' :: (mid ++ ('\n' :: '\x7d' :: post)))) =
        String.mk ('/' :: '/' :: (mid ++ ['\n']))) ∧
    (∀ (s : String), (∀ cc ∈ s.data, cc ≠ '\x7d') → extract_block_content s = "") := by
  refine ⟨?_, ?_, ?_⟩
  · intro q hq mid post hmid
    have hmid' : ∀ cc ∈ mid,
        (⟨1, true, false, false, some q, some 0⟩ : ScanSt).stringChar ≠ some cc := by
      intro cc hcc h
      exact hmid cc hcc (Option.some_injective _ h).symm
    have s1 : ebcStep ScanSt.init 0 '\x7b'
        (' ' :: q :: (mid ++ (q :: ' ' :: '\x7d' :: post))).head? =
        (⟨1, false, false, false, none, some 0⟩, none) := rfl
    have s2 : ebcStep ⟨1, false, false, false, none, some 0⟩ 1 ' '
        (q :: (mid ++ (q :: ' ' :: '\x7d' :: post))).head? =
        (⟨1, false, false, false, none, some 0⟩, none) := by
      rcases hq with rfl | rfl <;> rfl
    have s3 : ebcStep ⟨1, false, false, false, none, some 0⟩ 2 q
        (mid ++ (q :: ' ' :: '\x7d' :: post)).head? =
        (⟨1, true, false, false, some q, some 0⟩, none) := by
      unfold ebcStep
      rw [if_pos hq]
      simp
    have s5 : ebcStep ⟨1, true, false, false, some q, some 0⟩ (3 + mid.length) q
        (' ' :: '\x7d' :: post).head? =
        (⟨1, false, false, false, some q, some 0⟩, none) := by
      unfold ebcStep
      rw [if_pos hq]
      simp
    have s6 : ebcStep ⟨1, false, false, false, some q, some 0⟩ (3 + mid.length + 1) ' '
        ('\x7d' :: post).head? =
        (⟨1, false, false, false, some q, some 0⟩, none) := rfl
    have s7 : ebcStep ⟨1, false, false, false, some q, some 0⟩ (3 + mid.length + 1 + 1) '\x7d'
        post.head? =
        (⟨0, false, false, false, some q, some 0⟩, some 0) := rfl
    have hrun : ebcAux ScanSt.init 0
        ('\x7b' :: ' ' :: q :: (mid ++ (q :: ' ' :: '\x7d' :: post))) =
        some (0 + 1, 3 + mid.length + 1 + 1) := by
      rw [ebcAux_cons_none _ _ _ _ _ s1, ebcAux_cons_none _ _ _ _ _ s2,
        ebcAux_cons_none _ _ _ _ _ s3,
        ebcAux_skip_inString ⟨1, true, false, false, some q, some 0⟩ rfl rfl rfl mid hmid' 3 _,
        ebcAux_cons_none _ _ _ _ _ s5, ebcAux_cons_none _ _ _ _ _ s6,
        ebcAux_cons_some _ _ _ _ _ 0 s7]
    show (match ebcAux ScanSt.init 0
        ('\x7b' :: ' ' :: q :: (mid ++ (q :: ' ' :: '\x7d' :: post))) with
      | some (a, b) =>
        String.mk ((('\x7b' :: ' ' :: q :: (mid ++ (q :: ' ' :: '\x7d' :: post))).take b).drop a)
      | none => "") = String.mk (' ' :: q :: (mid ++ [q, ' ']))
    rw [hrun]
    have h3 : ('\x7b' :: ' ' :: q :: (mid ++ (q :: ' ' :: '\x7d' :: post))) =
        (['\x7b', ' ', q] ++ mid) ++ (q :: ' ' :: '\x7d' :: post) := by simp
    simp only [h3]
    rw [List.take_append_eq_append_take,
      List.take_of_length_le (l := ['\x7b', ' ', q] ++ mid)
        (by simp only [List.length_append, List.length_cons, List.length_nil]; omega),
      show 3 + mid.length + 1 + 1 - (['\x7b', ' ', q] ++ mid).length = 2 by
        simp only [List.length_append, List.length_cons, List.length_nil]; omega]
    simp
  · intro mid post hmid
    have hmid' : ∀ cc ∈ ('/' :: mid), cc ≠ '\n' := by
      intro cc hcc
      rcases List.mem_cons.mp hcc with rfl | hcc'
      · decide
      · exact hmid cc hcc'
    have s1 : ebcStep ScanSt.init 0 '\x7b'
        ('/' :: '/' :: (mid ++ ('\n' :: '\x7d' :: post))).head? =
        (⟨1, false, false, false, none, some 0⟩, none) := rfl
    have s2 : ebcStep ⟨1, false, false, false, none, some 0⟩ 1 '/'
        ('/' :: (mid ++ ('\n' :: '\x7d' :: post))).head? =
        (⟨1, false, false, true, none, some 0⟩, none) := rfl
    have s4 : ebcStep ⟨1, false, false, true, none, some 0⟩ (2 + ('/' :: mid).length) '\n'
        ('\x7d' :: post).head? =
        (⟨1, false, false, false, none, some 0⟩, none) := rfl
    have s5 : ebcStep ⟨1, false, false, false, none, some 0⟩ (2 + ('/' :: mid).length + 1) '\x7d'
        post.head? =
        (⟨0, false, false, false, none, some 0⟩, some 0) := rfl
    have hrun : ebcAux ScanSt.init 0
        ('\x7b' :: '/' :: '/' :: (mid ++ ('\n' :: '\x7d' :: post))) =
        some (0 + 1, 2 + ('/' :: mid).length + 1) := by
      rw [ebcAux_cons_none _ _ _ _ _ s1, ebcAux_cons_none _ _ _ _ _ s2,
        show ('/' :: (mid ++ ('\n' :: '\x7d' :: post))) =
          (('/' :: mid) ++ ('\n' :: '\x7d' :: post)) from rfl,
        ebcAux_skip_inComment ⟨1, false, false, true, none, some 0⟩ rfl ('/' :: mid) hmid' 2 _,
        ebcAux_cons_none _ _ _ _ _ s4, ebcAux_cons_some _ _ _ _ _ 0 s5]
    show (match ebcAux ScanSt.init 0
        ('\x7b' :: '/' :: '/' :: (mid ++ ('\n' :: '\x7d' :: post))) with
      | some (a, b) =>
        String.mk ((('\x7b' :: '/' :: '/' :: (mid ++ ('\n' :: '\x7d' :: post))).take b).drop a)
      | none => "") = String.mk ('/' :: '/' :: (mid ++ ['\n']))
    rw [hrun]
    have h3 : ('\x7b' :: '/' :: '/' :: (mid ++ ('\n' :: '\x7d' :: post))) =
        (['\x7b', '/', '/'] ++ mid) ++ ('\n' :: '\x7d' :: post) := by simp
    simp only [h3]
    rw [List.take_append_eq_append_take,
      List.take_of_length_le (l := ['\x7b', '/', '/'] ++ mid)
        (by simp only [List.length_append, List.length_cons, List.length_nil]; omega),
      show 2 + ('/' :: mid).length + 1 - (['\x7b', '/', '/'] ++ mid).length = 1 by
        simp only [List.length_append, List.length_cons, List.length_nil]; omega]
    simp
  · intro s h
    show (match ebcAux ScanSt.init 0 s.data with
      | some (a, b) => String.mk ((s.data.take b).drop a)
      | none => "") = ""
    rw [ebcAux_none_of_no_close s.data h]

/-- C5 (witness): the suppression statement applied to concrete inputs —
a brace inside a string literal, inside a character literal, and inside
a line comment, plus a brace-free unbalanced input. -/
theorem C5_scanner_suppression_witness :
    extract_block_content
        (String.mk ('\x7b' :: ' ' :: '"' :: (['a', '\x7d', 'b'] ++
          ('"' :: ' ' :: '\x7d' :: ['x'])))) =
      String.mk (' ' :: '"' :: (['a', '\x7d', 'b'] ++ ['"', ' '])) ∧
    extract_block_content
        (String.mk ('\x7b' :: ' ' :: '\'' :: (['\x7d'] ++
          ('\'' :: ' ' :: '\x7d' :: [])))) =
      String.mk (' ' :: '\'' :: (['\x7d'] ++ ['\'', ' '])) ∧
    extract_block_content
        (String.mk ('\x7b' :: '/' :: '/' :: (['a', '\x7d'] ++ ('\n' :: '\x7d' :: ['z'])))) =
      String.mk ('/' :: '/' :: (['a', '\x7d'] ++ ['\n'])) ∧
    extract_block_content "\x7b\x7b(" = "" :=
  ⟨C5_scanner_suppression.1 '"' (Or.inl rfl) ['a', '\x7d', 'b'] ['x'] (by decide),
   C5_scanner_suppression.1 '\'' (Or.inr rfl) ['\x7d'] [] (by decide),
   C5_scanner_suppression.2.1 ['a', '\x7d'] ['z'] (by decide),
   C5_scanner_suppression.2.2 "\x7b\x7b(" (by decide)⟩

end CntxtJV
